import Mathlib

/-!
Verification development for the roguelike dungeon-generation core
(`src/rpg/dungeon.py`, `src/rpg/utils.py`).

The Python code is shallowly embedded: Python `int` becomes `Int` (tile
values include `-1`), machine integers play no role, mutable state is
threaded explicitly, randomness is an explicit stream of draw values
(`random.randrange(a, b)` consumes one stream value `v` and yields
`a + v % (b - a)`, failing like Python does when the range is empty),
and fallible or possibly-diverging code returns `Option`/`Except`
driven by fuel.  Definitions follow the source line by line and keep
the source's names where Lean allows it.
-/

set_option maxRecDepth 10000

namespace Rpg

/-! ## Points (`utils.py`, class `Point`) -/

/-- A pathfinder point is a Python tuple `(x, y)` of ints. -/
abbrev Pt := Int × Int

/-- Integer point with named coordinates (`utils.Point`). -/
structure Point where
  x : Int
  y : Int
deriving DecidableEq, Repr

/-- Fuel-driven copy of `Nat.sqrt.iter` (Newton's method), written by
structural recursion so the kernel can evaluate it. -/
def isqrtIter : Nat → Nat → Nat → Nat
  | 0, _, guess => guess
  | fuel + 1, n, guess =>
    let next := (guess + n / guess) / 2
    if next < guess then isqrtIter fuel n next else guess

/-- Kernel-computable integer square root, the model of Python's
`math.isqrt`; proven equal to `Nat.sqrt` below. -/
def isqrt (n : Nat) : Nat :=
  if n ≤ 1 then n else isqrtIter n n (n / 2)

/-- Static truncated Euclidean distance
(`Point.dst(x1, y1, x2, y2) = isqrt((x1-x2)**2 + (y1-y2)**2)`). -/
def Point.dst (x1 y1 x2 y2 : Int) : Nat :=
  isqrt (((x1 - x2) ^ 2 + (y1 - y2) ^ 2)).toNat

/-- Method form `p.distance(x, y)`.  The source delegates with
`Point.dst(self._x, x, self._y, y)`, i.e. it passes `(p.x, x, p.y, y)`
positionally into `dst(x1, y1, x2, y2)`. -/
def Point.distance (p : Point) (x y : Int) : Nat :=
  Point.dst p.x x p.y y

/-- Method form `p.distance(another=q)`: the source calls
`Point.dst(self._x, another.x, self._y, another.y)`. -/
def Point.distanceAnother (p q : Point) : Nat :=
  Point.dst p.x q.x p.y q.y

/-! ## Grid (`utils.py`, class `Grid`)

The grid stores its cells as a list of rows (`self._data[y][x]`).
Python's `get`/`put`/`neighbours` raise `ValueError` on out-of-range
coordinates; every embedded caller guards with `in_bounds` exactly as
the source does, and `neighbours` — the one operation the pathfinder
may reach with unchecked coordinates — returns `Option` to model the
raise. -/

structure Grid where
  width : Int
  height : Int
  data : List (List Int)
deriving DecidableEq, Repr

/-- Constructor `Grid(width, height, init_value)`. -/
def Grid.make (w h : Nat) (init : Int) : Grid :=
  ⟨(w : Int), (h : Int), List.replicate h (List.replicate w init)⟩

/-- Well-formedness: the row list matches the stated dimensions. -/
def Grid.WF (g : Grid) : Prop :=
  0 ≤ g.width ∧ 0 ≤ g.height ∧ g.data.length = g.height.toNat ∧
    ∀ row ∈ g.data, row.length = g.width.toNat

/-- Bounds test `0 <= x < width and 0 <= y < height`. -/
def Grid.in_bounds (g : Grid) (x y : Int) : Bool :=
  decide (0 ≤ x) && decide (x < g.width) && decide (0 ≤ y) && decide (y < g.height)

/-- Cell read `self._data[y][x]` (callers guard with `in_bounds`). -/
def Grid.get (g : Grid) (x y : Int) : Int :=
  (g.data.getD y.toNat []).getD x.toNat 0

/-- Cell write `self._data[y][x] = val` (callers guard with `in_bounds`). -/
def Grid.put (g : Grid) (x y : Int) (val : Int) : Grid :=
  { g with data := g.data.set y.toNat ((g.data.getD y.toNat []).set x.toNat val) }

/-- Membership in a Python set literal of tile values, modelled as a list. -/
def allowedMem (t : Int) (allowed : List Int) : Bool := t ∈ allowed

/-- Neighbour enumeration, in the source's fixed order: up, right, down,
left, then (with `diagonals`) top-left, top-right, bottom-right,
bottom-left; each candidate is bounds-checked and filtered by
membership of its tile in `allowed`.  Python raises on an out-of-bounds
centre, modelled by `none`. -/
def Grid.neighbours (g : Grid) (x y : Int) (allowed : List Int)
    (diagonals : Bool := false) : Option (List Pt) :=
  if g.in_bounds x y = false then none else
  some <|
    (if decide (y - 1 > -1) && allowedMem (g.get x (y-1)) allowed then [((x, y-1) : Pt)] else []) ++
    (if decide (x + 1 < g.width) && allowedMem (g.get (x+1) y) allowed then [((x+1, y) : Pt)] else []) ++
    (if decide (y + 1 < g.height) && allowedMem (g.get x (y+1)) allowed then [((x, y+1) : Pt)] else []) ++
    (if decide (x - 1 > -1) && allowedMem (g.get (x-1) y) allowed then [((x-1, y) : Pt)] else []) ++
    (if diagonals then
      (if decide (y - 1 > -1) && decide (x - 1 > -1) && allowedMem (g.get (x-1) (y-1)) allowed then [((x-1, y-1) : Pt)] else []) ++
      (if decide (y - 1 > -1) && decide (x + 1 < g.width) && allowedMem (g.get (x+1) (y-1)) allowed then [((x+1, y-1) : Pt)] else []) ++
      (if decide (y + 1 < g.height) && decide (x + 1 < g.width) && allowedMem (g.get (x+1) (y+1)) allowed then [((x+1, y+1) : Pt)] else []) ++
      (if decide (y + 1 < g.height) && decide (x - 1 > -1) && allowedMem (g.get (x-1) (y+1)) allowed then [((x-1, y+1) : Pt)] else [])
     else [])

/-! ## Python dictionaries

`came_from` and `cost_so_far` are Python dicts keyed by points; the
model is an association list with one entry per key: lookup finds the
entry, insertion updates in place or appends. -/

def dictGet {α : Type} : List (Pt × α) → Pt → Option α
  | [], _ => none
  | e :: tl, k => if e.1 = k then some e.2 else dictGet tl k

def dictInsert {α : Type} : List (Pt × α) → Pt → α → List (Pt × α)
  | [], k, v => [(k, v)]
  | e :: tl, k, v => if e.1 = k then (k, v) :: tl else e :: dictInsert tl k v

/-- Keys of a dict, in insertion order. -/
def dictKeys {α : Type} (d : List (Pt × α)) : List Pt := d.map Prod.fst

/-! ## Python `heapq` (used by `PathFinder.PriorityQueue`)

`Item.__lt__` compares priorities only, so heap items are
`(point, priority)` pairs ordered by the second component.  `heappush`,
`heappop`, `_siftdown` and `_siftup` are transcribed from CPython's
`heapq`, with the loops driven by explicit fuel (`pos` strictly
decreases in `_siftdown` and strictly increases below `endpos` in
`_siftup`, so the chosen fuels always suffice). -/

abbrev HeapItem := Pt × Nat

def dummyItem : HeapItem := (((0 : Int), (0 : Int)), 0)

/-- CPython `heapq._siftdown(heap, startpos, pos)`: `newitem` bubbles up
toward the root while it is smaller than its parent. -/
def siftdownAux : Nat → List HeapItem → Nat → Nat → HeapItem → List HeapItem
  | 0, heap, _, pos, newitem => heap.set pos newitem
  | fuel + 1, heap, startpos, pos, newitem =>
    if startpos < pos then
      let parentpos := (pos - 1) / 2
      let parent := heap.getD parentpos dummyItem
      if newitem.2 < parent.2 then
        siftdownAux fuel (heap.set pos parent) startpos parentpos newitem
      else heap.set pos newitem
    else heap.set pos newitem

def siftdown (heap : List HeapItem) (startpos pos : Nat) : List HeapItem :=
  siftdownAux pos heap startpos pos (heap.getD pos dummyItem)

/-- CPython `heapq._siftup(heap, pos)`: the hole at `pos` slides down to
a leaf following the smaller child, then `_siftdown` places `newitem`. -/
def siftupAux (endpos startpos : Nat) : Nat → List HeapItem → Nat → HeapItem → List HeapItem
  | 0, heap, pos, newitem => siftdownAux pos (heap.set pos newitem) startpos pos newitem
  | fuel + 1, heap, pos, newitem =>
    let childpos := 2 * pos + 1
    if childpos < endpos then
      let rightpos := childpos + 1
      let childpos :=
        if rightpos < endpos ∧
            ¬ (heap.getD childpos dummyItem).2 < (heap.getD rightpos dummyItem).2 then
          rightpos
        else childpos
      siftupAux endpos startpos fuel (heap.set pos (heap.getD childpos dummyItem)) childpos newitem
    else siftdownAux pos (heap.set pos newitem) startpos pos newitem

def siftup (heap : List HeapItem) (pos : Nat) : List HeapItem :=
  siftupAux heap.length pos heap.length heap pos (heap.getD pos dummyItem)

/-- CPython `heapq.heappush`. -/
def heappush (heap : List HeapItem) (item : HeapItem) : List HeapItem :=
  siftdown (heap ++ [item]) 0 heap.length

/-- CPython `heapq.heappop`; popping an empty heap raises, modelled by
`none` (the pathfinder only pops after its `is_empty` check). -/
def heappop (heap : List HeapItem) : Option (HeapItem × List HeapItem) :=
  match heap.getLast? with
  | none => none
  | some lastelt =>
    let rest := heap.dropLast
    if rest.isEmpty then some (lastelt, [])
    else some (rest.getD 0 dummyItem, siftup (rest.set 0 lastelt) 0)

/-! ## PathFinder (`dungeon.py`, classes `PathNotFoundError`, `PathFinder`) -/

/-- The two ways `find` can raise: its own `PathNotFoundError`, and the
`ValueError` that `Grid.neighbours` raises on an out-of-bounds centre. -/
inductive PathErr where
  | pathNotFound
  | outOfBounds
deriving DecidableEq, Repr

/-- Search state: the grid reference `self._data` (threaded to state the
frame property), the heap `frontier`, and the dicts `came_from` and
`cost_so_far`. -/
structure PFState where
  grid : Grid
  frontier : List HeapItem
  came_from : List (Pt × Option Pt)
  cost_so_far : List (Pt × Nat)

namespace PathFinder

/-- `PathFinder.cost(point_to, point_goal)`: truncated Euclidean
distance to the goal plus the injected terrain cost. -/
def cost (costCallable : Pt → Nat) (point_to point_goal : Pt) : Nat :=
  Point.dst point_to.1 point_to.2 point_goal.1 point_goal.2 + costCallable point_to

/-- Path reconstruction: Python seeds `path = [start]`, then appends
`current = goal` and follows `came_from` back-links until it reaches
`start` — without reversing, so the result is
`[start, goal, …, first-node-after-start]`.  This helper produces the
part after the seeded `start`. -/
def reconstruct (came_from : List (Pt × Option Pt)) (start : Pt) :
    Nat → Pt → Option (List Pt)
  | 0, _ => none
  | fuel + 1, current =>
    if current = start then some []
    else
      match dictGet came_from current with
      | some (some prev) => (reconstruct came_from start fuel prev).map (fun l => current :: l)
      | _ => none

/-- The value `new_cost = cost_so_far[current] + self.cost(_next, goal)`. -/
def relaxCost (costCallable : Pt → Nat) (goal current : Pt) (s : PFState) (n : Pt) : Nat :=
  (dictGet s.cost_so_far current).getD 0 + cost costCallable n goal

/-- The state after recording `_next` (costs, frontier, predecessor). -/
def recordState (costCallable : Pt → Nat) (goal current : Pt) (s : PFState) (n : Pt) : PFState :=
  { s with
    cost_so_far := dictInsert s.cost_so_far n (relaxCost costCallable goal current s n)
    frontier := heappush s.frontier (n, relaxCost costCallable goal current s n)
    came_from := dictInsert s.came_from n (some current) }

/-- The body of `for _next in self._data.neighbours(*current, allowed=allowed)`:
compute `new_cost`; if `_next` is unseen or found cheaper, record the
cost, push it on the frontier, and set its predecessor. -/
def relax (costCallable : Pt → Nat) (goal current : Pt) (s : PFState) (n : Pt) : PFState :=
  let record : Bool :=
    match dictGet s.cost_so_far n with
    | some c => relaxCost costCallable goal current s n < c
    | none => true
  if record then recordState costCallable goal current s n
  else s

/-- One `while not frontier.is_empty()` iteration per unit of fuel. -/
def findLoop (g : Grid) (costCallable : Pt → Nat) (start goal : Pt)
    (allowed : List Int) : Nat → PFState → Option (Except PathErr (List Pt) × Grid)
  | 0, _ => none
  | fuel + 1, st =>
    match heappop st.frontier with
    | none => some (.error .pathNotFound, st.grid)
    | some (item, rest) =>
      if item.1 = goal then
        match reconstruct st.came_from start (st.came_from.length + 1) goal with
        | some tail => some (.ok (start :: tail), st.grid)
        | none => none
      else
        match st.grid.neighbours item.1.1 item.1.2 allowed false with
        | none => some (.error .outOfBounds, st.grid)
        | some ns =>
          findLoop g costCallable start goal allowed fuel
            (ns.foldl (relax costCallable goal item.1) { st with frontier := rest })

/-- `PathFinder.find(start, goal, allowed)` with its initial state:
`frontier = [(start, 0)]`, `came_from[start] = None`,
`cost_so_far[start] = 1`. -/
def find (g : Grid) (costCallable : Pt → Nat) (start goal : Pt)
    (allowed : List Int) (fuel : Nat) : Option (Except PathErr (List Pt) × Grid) :=
  findLoop g costCallable start goal allowed fuel
    { grid := g
      frontier := heappush [] (start, 0)
      came_from := [(start, none)]
      cost_so_far := [(start, 1)] }

end PathFinder

/-! ## Tile constants (`dungeon.py`, class `Tiles`) -/

def TILE_CAVE : Int := -1
def TILE_GROUND : Int := 0
def TILE_CORRIDOR : Int := 1
def TILE_FLOOR : Int := 3
def TILE_DOOR : Int := 4
def TILE_WALL_H : Int := 5
def TILE_WALL_V : Int := 6
def TILE_WALL_TL : Int := 7
def TILE_WALL_TR : Int := 8
def TILE_WALL_BL : Int := 9
def TILE_WALL_BR : Int := 10

def OBJ_WEAPON : Int := 0
def OBJ_ROD : Int := 1
def OBJ_ARMOR : Int := 2
def OBJ_RING : Int := 3
def OBJ_FOOD : Int := 4
def OBJ_POTION : Int := 5
def OBJ_COINS : Int := 6
def OBJ_SCROLL : Int := 7

/-! ## Dungeon movement query (`dungeon.py`, class `Dungeon`) -/

/-- `Dungeon.MOVEMENT_ALLOWED = (TILE_DOOR, TILE_CORRIDOR, TILE_FLOOR, TILE_GROUND)`. -/
def MOVEMENT_ALLOWED : List Int := [TILE_DOOR, TILE_CORRIDOR, TILE_FLOOR, TILE_GROUND]

/-- `Dungeon.is_movement_possible(x, y, dx, dy)` over the dungeon's grid. -/
def is_movement_possible (data : Grid) (x y dx dy : Int) : Bool :=
  if dx = 0 ∧ dy = 0 then false
  else
    let new_x := x + dx
    let new_y := y + dy
    if data.in_bounds new_x new_y = false then false
    else allowedMem (data.get new_x new_y) MOVEMENT_ALLOWED

/-- Fog-of-war constants. -/
def TILE_NOT_VISITED : Int := 0
def TILE_VISITED : Int := 1

/-- `Dungeon.update_visible()`: the fog grid, the hero position and the
fog dimensions are the only state the method touches, so it is embedded
as a function of those.  `range(a, b)` over ints is modelled by
iterating the integer offsets `a, a+1, ..., b-1`. -/
def intRange (lo hi : Int) : List Int :=
  (List.range (hi - lo).toNat).map (fun (i : Nat) => lo + (i : Int))

def update_visible (hero : Point) (fog : Grid) : Grid :=
  let dist : Int := 7
  let start_x := max 0 (hero.x - dist)
  let start_y := max 0 (hero.y - dist)
  let end_x := min fog.width (hero.x + dist)
  let end_y := min fog.height (hero.y + dist)
  (intRange start_x end_x).foldl (fun acc x =>
    (intRange start_y end_y).foldl (fun acc2 y =>
      if hero.distance x y ≤ 7 then acc2.put x y TILE_VISITED else acc2) acc) fog

/-! ## Nook content table (`Dungeon._place_objects`)

The fixed weighted table for the per-nook draw: `-1` places a monster,
`-2` places nothing, a non-negative entry places that loot item.
`random.choice` draws uniformly, so outcome weights are entry counts. -/

def random_objects : List Int :=
  [-1, -1, -1, -1, -1, -1, -1, -1, -1, -1, -1, -1, -1, -1, -1, -1, -1, -1, -1, -1, -1,
   -2, -2, -2, -2, -2, -2, -2, -2, -2, -2, -2, -2, -2, -2, -2, -2, -2, -2, -2, -2, -2,
   -2, -2, -2, -2, -2, -2, -2, -2, -2, -2, -2, -2, -2, -2, -2, -2, -2, -2, -2, -2, -2,
   -2, -2, -2, -2, -2, -2, -2, -2, -2, -2, -2, -2, -2, -2, -2, -2, -2, -2, -2, -2, -2,
   OBJ_FOOD, OBJ_POTION, OBJ_POTION, OBJ_COINS, OBJ_COINS]

/-- Number of table entries that place nothing (`-2`). -/
def nothingCount : Nat := (random_objects.filter (fun v => v = -2)).length

/-- Number of table entries that place a monster (`-1`). -/
def monsterCount : Nat := (random_objects.filter (fun v => v = -1)).length

/-- Number of table entries that place a loot item (non-negative id). -/
def lootCount : Nat := (random_objects.filter (fun v => 0 ≤ v)).length

/-! ## Reachability over allowed tiles

One step moves to a 4-neighbour whose tile is in the allowed set
(exactly the moves `PathFinder.find` explores); a point is reachable
when a finite chain of such steps links the two points. -/

def stepAllowed (g : Grid) (allowed : List Int) (p q : Pt) : Prop :=
  q ∈ (g.neighbours p.1 p.2 allowed false).getD []

instance (g : Grid) (allowed : List Int) (p q : Pt) :
    Decidable (stepAllowed g allowed p q) := by
  unfold stepAllowed; infer_instance

def ReachA (g : Grid) (allowed : List Int) (s t : Pt) : Prop :=
  Relation.ReflTransGen (stepAllowed g allowed) s t

instance : DecidableEq (Except PathErr (List Pt)) := fun a b =>
  match a, b with
  | .ok x, .ok y =>
    if h : x = y then isTrue (by rw [h]) else
      isFalse (by intro hh; injection hh; contradiction)
  | .error x, .error y =>
    if h : x = y then isTrue (by rw [h]) else
      isFalse (by intro hh; injection hh; contradiction)
  | .ok _, .error _ => isFalse (by intro hh; exact Except.noConfusion hh)
  | .error _, .ok _ => isFalse (by intro hh; exact Except.noConfusion hh)

/-! ## Analysis apparatus for the pathfinder

Auxiliary quantities used to prove that `find` terminates with
`PathNotFound` when the goal is unreachable: the (finite) list of
in-bounds cells, a bound on the one-step cost, and a potential that
strictly decreases across loop iterations. -/

/-- All in-bounds cells of a grid, as a duplicate-free list. -/
def gridCells (g : Grid) : List Pt :=
  (intRange 0 g.width).flatMap (fun x => (intRange 0 g.height).map (fun y => ((x, y) : Pt)))

/-- Largest one-step cost over a list of cells. -/
def maxStepCost (costfn : Pt → Nat) (goal : Pt) (pts : List Pt) : Nat :=
  pts.foldr (fun p m => max (PathFinder.cost costfn p goal) m) 0

/-- Sum of recorded costs over `pts`, counting unrecorded cells as `M`. -/
def SumPot (pts : List Pt) (d : List (Pt × Nat)) (M : Nat) : Nat :=
  (pts.map (fun p => (dictGet d p).getD M)).sum

/-- Default potential per unrecorded cell: strictly above every cost the
search can ever record (`recorded ≤ 1 + |cells| * C`). -/
def potM (g : Grid) (C : Nat) : Nat := 2 + (gridCells g).length * C

/-- The loop potential: frontier size plus summed cost potential. -/
def Phi (g : Grid) (C : Nat) (st : PFState) : Nat :=
  st.frontier.length + SumPot (gridCells g) st.cost_so_far (potM g C)

/-- Loop invariant for `findLoop`, relative to a one-step cost bound `C`
for in-bounds cells: the grid reference is never swapped, every frontier
point is reachable from `start` over allowed tiles, in bounds, and has a
recorded cost; recorded entries have in-bounds duplicate-free keys and
costs bounded by `1 + (number of entries) * C`. -/
structure PFInv (g : Grid) (allowed : List Int) (start : Pt) (C : Nat)
    (st : PFState) : Prop where
  grid_eq : st.grid = g
  reachF : ∀ it ∈ st.frontier, ReachA g allowed start it.1
  inbF : ∀ it ∈ st.frontier, g.in_bounds it.1.1 it.1.2 = true
  recF : ∀ it ∈ st.frontier, (dictGet st.cost_so_far it.1).isSome = true
  keys : ∀ e ∈ st.cost_so_far, e.1 ∈ gridCells g
  ndKeys : (dictKeys st.cost_so_far).Nodup
  bound : ∀ e ∈ st.cost_so_far, e.2 ≤ 1 + st.cost_so_far.length * C

/-! ## Random stream (`random` module)

Seeded randomness is modelled by an explicit stream of draw values: a
seed determines the stream of the generator's outputs, and
`random.randrange(a, b)` consumes one value `v`, yielding
`a + v % (b - a)`; like Python it fails on an empty range. -/

structure RState where
  vals : Nat → Nat
  idx : Nat

/-- Generation computations: consume the stream, may fail (a Python
exception or exhausted fuel in a `while True:` loop). -/
def GenM (α : Type) : Type := RState → Option (α × RState)

instance : Monad GenM where
  pure a := fun r => some (a, r)
  bind m f := fun r =>
    match m r with
    | none => none
    | some (a, r') => f a r'

def genFail {α : Type} : GenM α := fun _ => none

def randrange (lo hi : Int) : GenM Int := fun r =>
  if hi ≤ lo then none
  else some (lo + ((r.vals r.idx % (hi - lo).toNat : Nat) : Int), ⟨r.vals, r.idx + 1⟩)

/-- Python's `random.random() < 0.5` coin flip, modelled as one draw
with an even/odd outcome (used only by content placement, which the
grid-level claims do not depend on). -/
def coinFlip : GenM Bool := fun r =>
  some (r.vals r.idx % 2 = 0, ⟨r.vals, r.idx + 1⟩)

/-! ## Stable sort (`list.sort(key=...)`)

Python's sort is stable and ascending; a stable insertion sort produces
the same list, and it evaluates in the kernel. -/

def insertSorted {α : Type} (le : α → α → Bool) (a : α) : List α → List α
  | [] => [a]
  | b :: tl => if le b a then b :: insertSorted le a tl else a :: b :: tl

def stableSort {α : Type} (le : α → α → Bool) (l : List α) : List α :=
  l.foldl (fun acc a => insertSorted le a acc) []

/-! ## Rect / Room (`utils.Rect`, `dungeon.Room`) -/

structure Room where
  x : Int
  y : Int
  width : Int
  height : Int
deriving DecidableEq, Repr

/-- `Rect.bounds() = (x, y, x + width, y + height)` (inclusive use sites). -/
def Room.bounds (r : Room) : Int × Int × Int × Int :=
  (r.x, r.y, r.x + r.width, r.y + r.height)

/-- `Rect.intersects(another, min_distance)`. -/
def Room.intersects (self another : Room) (min_distance : Int) : Bool :=
  decide (self.x - min_distance ≤ another.x + another.width) &&
  decide (another.x ≤ self.x + self.width + min_distance) &&
  decide (self.y - min_distance ≤ another.y + another.height) &&
  decide (another.y ≤ self.y + self.height + min_distance)

/-- `Rect.center()`; widths and heights are non-negative wherever this
is called, so Lean's integer division agrees with Python's `//`. -/
def Room.center (r : Room) : Pt :=
  (r.x + r.width / 2, r.y + r.height / 2)

/-- `Room.priority() = self._y * self._x`. -/
def Room.priority (r : Room) : Int := r.y * r.x

/-! ## Generator constants and allowed sets (`dungeon._Generator`) -/

def NUMBER_OF_ROOMS : Nat := 10
def MIN_ROOM_SIZE : Int := 8
def MAX_ROOM_SIZE : Int := 16
def MIN_DISTANCE_BETWEEN_ROOMS : Int := 8

def DRUNK_MAN_ALLOWED : List Int := [TILE_CAVE]
def COST_CAVES_ALLOWED : List Int := [TILE_CAVE, TILE_GROUND]
def CONNECT_CAVES_ALLOWED : List Int := [TILE_GROUND, TILE_CAVE]
def COST_ROOMS_ALLOWED : List Int :=
  [TILE_CORRIDOR, TILE_GROUND, TILE_WALL_H, TILE_WALL_V, TILE_FLOOR, TILE_DOOR,
   TILE_WALL_TL, TILE_WALL_BL, TILE_WALL_BR, TILE_WALL_TR]
def CONNECT_ROOMS_ALLOWED : List Int :=
  [TILE_GROUND, TILE_WALL_H, TILE_WALL_V, TILE_FLOOR, TILE_CORRIDOR, TILE_DOOR]
def CLEAN_UP_ALLOWED : List Int := [TILE_CORRIDOR]

/-! ## Room sampling (`_Generator._random_room`, `_generate_room`) -/

/-- `_random_room()`: draw a size in `[8, 16)`, derive a 4:3 footprint,
and draw a position so the rectangle fits the grid (all quantities
non-negative, so `//` agrees with Lean's division). -/
def _random_room (W H : Int) : GenM Room := do
  let size ← randrange MIN_ROOM_SIZE MAX_ROOM_SIZE
  let dims : Int × Int :=
    if size % 4 ≠ 0 then (size / 3 * 4, size)
    else (size, size / 3 * 4)
  let room_width := dims.1
  let room_height := dims.2
  let x ← randrange 0 (W - room_width)
  let y ← randrange 0 (H - room_height)
  pure ⟨x, y, room_width, room_height⟩

/-- `_generate_room()`: rejection-sample until the candidate clears
every accepted room by the separation margin; the unbounded
`while True:` is driven by fuel. -/
def _generate_room (W H : Int) (rooms : List Room) : Nat → GenM Room
  | 0 => genFail
  | fuel + 1 => do
    let new_room ← _random_room W H
    if rooms.any (fun room => room.intersects new_room MIN_DISTANCE_BETWEEN_ROOMS) then
      _generate_room W H rooms fuel
    else pure new_room

/-! ## Drunkard's walk (`_Generator._drunk_man`) -/

/-- One walk: per step, draw a direction, move unless at the edge, then
convert every 4-neighbour still in cave state to ground, tracking the
farthest converted cell from the walk's start. -/
def drunkLoop (W H sx sy : Int) :
    Nat → Int × Int → Int × Int × Int → Grid → GenM (Int × Int × Int × Grid)
  | 0, _, nk, g => pure (nk.1, nk.2.1, nk.2.2, g)
  | steps + 1, pos, nk, g => do
    let select ← randrange 0 4
    let newpos : Int × Int :=
      if select = 0 ∧ pos.2 > 0 then (pos.1, pos.2 - 1)
      else if select = 1 ∧ pos.1 < W - 1 then (pos.1 + 1, pos.2)
      else if select = 2 ∧ pos.2 < H - 1 then (pos.1, pos.2 + 1)
      else if select = 3 ∧ pos.1 > 0 then (pos.1 - 1, pos.2)
      else pos
    match g.neighbours newpos.1 newpos.2 DRUNK_MAN_ALLOWED false with
    | none => genFail
    | some ns =>
      let step := ns.foldl (fun (acc : Grid × (Int × Int × Int)) nb =>
        let g2 := acc.1.put nb.1 nb.2 TILE_GROUND
        let d : Int := (Point.dst nb.1 nb.2 sx sy : Int)
        if d > acc.2.2.2 then (g2, (nb.1, nb.2, d)) else (g2, acc.2)) (g, nk)
      drunkLoop W H sx sy steps newpos step.2 step.1

def _drunk_man (W H : Int) (g : Grid) (start_x start_y : Int) (depth : Int) :
    GenM (Int × Int × Int × Grid) :=
  if g.in_bounds start_x start_y = false then pure (-1, -1, -1, g)
  else drunkLoop W H start_x start_y depth.toNat (start_x, start_y) (0, 0, 0) g

/-! ## Cave sculpting (`_Generator._generate_caves`) -/

def _generate_caves (W H : Int) (rooms : List Room) (g : Grid) (nooks : List Pt) :
    GenM (Grid × List Pt) :=
  rooms.foldlM (fun (st : Grid × List Pt) room => do
    let (left, rest) := (room.bounds.1, room.bounds.2)
    let top := rest.1
    let right := rest.2.1
    let bottom := rest.2.2
    let c := room.center
    let center_x := c.1
    let center_y := c.2
    let distance := min (center_x - left).natAbs (center_y - top).natAbs + 1
    (intRange left (right + 1)).foldlM (fun st2 cx =>
      (intRange top (bottom + 1)).foldlM (fun (st3 : Grid × List Pt) cy => do
        let depth ← randrange 4 7
        let (x, y, nkd, g') ← _drunk_man W H st3.1 cx cy depth
        let d : Int := (Point.dst x y center_x center_y : Int)
        if d > (distance : Int) ∧ nkd > 0 ∧ x ≠ left ∧ x ≠ right ∧ y ≠ top ∧ y ≠ bottom then
          pure (g', st3.2 ++ [(x, y)])
        else pure (g', st3.2)) st2) st) (g, nooks)

/-! ## Cost functions (`_cost_caves`, `_cost_rooms`) -/

def _cost_caves (g : Grid) (pt_to : Pt) : Nat :=
  match g.neighbours pt_to.1 pt_to.2 COST_CAVES_ALLOWED true with
  | none => 0
  | some ns =>
    ns.foldl (fun w nb =>
      let t := g.get nb.1 nb.2
      if t = TILE_CAVE then w + 1
      else if t = TILE_GROUND then w + 10
      else w) 0

def _cost_rooms (g : Grid) (pt_to : Pt) : Nat :=
  match g.neighbours pt_to.1 pt_to.2 COST_ROOMS_ALLOWED true with
  | none => 0
  | some ns =>
    ns.foldl (fun w nb =>
      let t := g.get nb.1 nb.2
      if t = TILE_GROUND then w + 5
      else if t = TILE_FLOOR then w + 1
      else if t = TILE_WALL_H ∨ t = TILE_WALL_V then w + 50
      else if t = TILE_WALL_TL ∨ t = TILE_WALL_BL then w + 70
      else if t = TILE_WALL_BR ∨ t = TILE_WALL_TR then w + 70
      else if t = TILE_CORRIDOR then w + 1
      else if t = TILE_DOOR then w + 1
      else if t = TILE_CAVE then w + 10
      else w) 0

/-- Fuel that provably outlasts any `find` run: one more than the
initial loop potential (the potential strictly decreases per
iteration). -/
def pfFuel (g : Grid) (costfn : Pt → Nat) (start goal : Pt) : Nat :=
  Phi g (maxStepCost costfn goal (gridCells g))
    ⟨g, [(start, 0)], [(start, none)], [(start, 1)]⟩ + 1

/-! ## Connection passes (`_connect_pair_caves`, `_connect_pair_rooms`) -/

/-- First loop of `_connect_pair_caves`: every cave tile 8-adjacent to a
path cell becomes corridor (sequentially, on the evolving grid). -/
def carveCorridors (path : List Pt) (g : Grid) : Option Grid :=
  path.foldlM (fun gacc ptr =>
    match gacc.neighbours ptr.1 ptr.2 CONNECT_CAVES_ALLOWED true with
    | none => none
    | some ns => some (ns.foldl (fun g2 nb =>
        if g2.get nb.1 nb.2 = TILE_CAVE then g2.put nb.1 nb.2 TILE_CORRIDOR else g2) gacc)) g

/-- Second loop of `_connect_pair_caves`: a short erosion walk from
every path cell, harvesting nooks at distance ≥ 2. -/
def widenPath (W H : Int) (path : List Pt) :
    Grid × List Pt → GenM (Grid × List Pt) := fun st =>
  path.foldlM (fun (st2 : Grid × List Pt) ptr => do
    let depth ← randrange 2 5
    let (x, y, d, g') ← _drunk_man W H st2.1 ptr.1 ptr.2 depth
    if d ≥ 2 then pure (g', st2.2 ++ [(x, y)])
    else pure (g', st2.2)) st

def _connect_pair_caves (W H : Int) (a b : Room) :
    Grid × List Pt → GenM (Grid × List Pt) := fun st =>
  match PathFinder.find st.1 (_cost_caves st.1) a.center b.center CONNECT_CAVES_ALLOWED
      (pfFuel st.1 (_cost_caves st.1) a.center b.center) with
  | none => genFail
  | some (.error .outOfBounds, _) => genFail
  | some (.error .pathNotFound, _) => pure st
  | some (.ok path, _) =>
    match carveCorridors path st.1 with
    | none => genFail
    | some g' => widenPath W H path (g', st.2)

def _connect_all_caves (W H : Int) (rooms : List Room) :
    Grid × List Pt → GenM (Grid × List Pt) := fun st =>
  (rooms.zip rooms.tail).foldlM (fun st2 ab => _connect_pair_caves W H ab.1 ab.2 st2) st

def _connect_pair_rooms (a b : Room) (g : Grid) : Option Grid :=
  match PathFinder.find g (_cost_rooms g) a.center b.center CONNECT_ROOMS_ALLOWED
      (pfFuel g (_cost_rooms g) a.center b.center) with
  | none => none
  | some (.error .outOfBounds, _) => none
  | some (.error .pathNotFound, _) => some g
  | some (.ok path, _) =>
    some (path.foldl (fun g2 ptr =>
      let cell_type := g2.get ptr.1 ptr.2
      if cell_type = TILE_WALL_H ∨ cell_type = TILE_WALL_V then
        g2.put ptr.1 ptr.2 TILE_DOOR
      else if cell_type = TILE_GROUND then g2.put ptr.1 ptr.2 TILE_CORRIDOR
      else g2) g)

def _connect_all_rooms (rooms : List Room) (g : Grid) : Option Grid :=
  (rooms.zip rooms.tail).foldlM (fun g2 ab => _connect_pair_rooms ab.1 ab.2 g2) g

/-! ## Stamping and cleanup (`_copy_room_data`, `_clean_up`) -/

def _copy_room_data (g : Grid) (room : Room) : Grid :=
  let (x1, rest) := (room.bounds.1, room.bounds.2)
  let y1 := rest.1
  let x2 := rest.2.1
  let y2 := rest.2.2
  (intRange x1 (x2 + 1)).foldl (fun gx x =>
    (intRange y1 (y2 + 1)).foldl (fun gy y =>
      if x = x1 ∧ y = y1 then gy.put x y TILE_WALL_TL
      else if x = x1 ∧ y = y2 then gy.put x y TILE_WALL_BL
      else if x = x2 ∧ y = y1 then gy.put x y TILE_WALL_TR
      else if x = x2 ∧ y = y2 then gy.put x y TILE_WALL_BR
      else if y = y1 ∨ y = y2 then gy.put x y TILE_WALL_H
      else if x = x1 ∨ x = x2 then gy.put x y TILE_WALL_V
      else gy.put x y TILE_FLOOR) gx) g

/-- One scan cell of `_clean_up`: if the cell still holds cave, convert
its corridor 8-neighbours (at that moment) to ground.  The scan centre
is always in bounds, so the unreachable `none` of `neighbours` is
absorbed by `getD []`. -/
def cleanCell (g : Grid) (x y : Int) : Grid :=
  if g.get x y = TILE_CAVE then
    ((g.neighbours x y CLEAN_UP_ALLOWED true).getD []).foldl
      (fun g2 nb => g2.put nb.1 nb.2 TILE_GROUND) g
  else g

/-- `_clean_up`: one pass over all interior cells. -/
def _clean_up (W H : Int) (g : Grid) : Grid :=
  (intRange 1 (W - 1)).foldl (fun gx x =>
    (intRange 1 (H - 1)).foldl (fun gy y => cleanCell gy x y) gx) g

/-- The interior scan cells of the cleanup pass, in scan order. -/
def interiorCells (W H : Int) : List Pt :=
  (intRange 1 (W - 1)).flatMap (fun x => (intRange 1 (H - 1)).map (fun y => ((x, y) : Pt)))

/-! ## The generation pipeline (`_Generator.run`, `Dungeon.__init__`) -/

def buildRooms (W H : Int) (rfuel : Nat) : Nat → List Room → GenM (List Room)
  | 0, acc => pure acc
  | k + 1, acc => do
    let r ← _generate_room W H acc rfuel
    buildRooms W H rfuel k (acc ++ [r])

/-- `_Generator.run()` (progress callbacks omitted — they touch no
state): sample rooms, sort by priority, sculpt caves, connect caves,
stamp rooms, connect rooms, clean up.  Returns the finished grid, the
sorted room list and the recorded nooks. -/
def generatorRun (W H : Int) (rfuel : Nat) : GenM (Grid × List Room × List Pt) := do
  let rooms0 ← buildRooms W H rfuel NUMBER_OF_ROOMS []
  let rooms := stableSort (fun a b => a.priority ≤ b.priority) rooms0
  let g0 : Grid := ⟨W, H, (List.replicate H.toNat (List.replicate W.toNat TILE_CAVE))⟩
  let (g1, nooks1) ← _generate_caves W H rooms g0 []
  let (g2, nooks2) ← _connect_all_caves W H rooms (g1, nooks1)
  let g3 := rooms.foldl _copy_room_data g2
  match _connect_all_rooms rooms g3 with
  | none => genFail
  | some g4 => pure (_clean_up W H g4, rooms, nooks2)

/-- The grid-relevant part of `Dungeon.__init__`: run the generator and
place the hero at the centre of the first room (content placement never
touches the tile grid). -/
def newDungeon (W H : Int) (rfuel : Nat) (stream : Nat → Nat) :
    Option (Grid × List Room × Pt) :=
  match generatorRun W H rfuel ⟨stream, 0⟩ with
  | none => none
  | some ((g, rooms, _), _) =>
    match rooms with
    | [] => none
    | r0 :: _ => some (g, rooms, r0.center)

/-! ## Adjacency predicates for the cleanup characterisation -/

/-- Eight-neighbour adjacency: distinct cells within Chebyshev distance 1. -/
def adj8 (c q : Pt) : Prop :=
  c ≠ q ∧ (c.1 - q.1).natAbs ≤ 1 ∧ (c.2 - q.2).natAbs ≤ 1

instance (c q : Pt) : Decidable (adj8 c q) := by
  unfold adj8; infer_instance

/-- The cell `q` is 8-adjacent to an interior cell holding a cave tile. -/
def CaveAdj (g : Grid) (q : Pt) : Prop :=
  ∃ c : Pt, 1 ≤ c.1 ∧ c.1 < g.width - 1 ∧ 1 ≤ c.2 ∧ c.2 < g.height - 1 ∧
    g.get c.1 c.2 = TILE_CAVE ∧ adj8 c q

/-! ## Concrete draw streams for counterexamples and witnesses -/

/-- The all-zero draw stream. -/
def streamZero : Nat → Nat := fun _ => 0

/-- Draws `1, 0, 0, 0, ...`: size 9 (footprint 12 by 9), position (0, 0). -/
def streamC8cx : Nat → Nat := fun i => [1, 0, 0].getD i 0

/-! # Theorems -/

/-- Fuel adequacy for the fueled Newton iteration: with at least `guess`
units of fuel it coincides with `Nat.sqrt.iter`. -/
theorem isqrtIter_eq_iter (fuel n guess : Nat) (h : guess ≤ fuel) :
    isqrtIter fuel n guess = Nat.sqrt.iter n guess := by
  induction fuel generalizing guess with
  | zero =>
    interval_cases guess
    rw [isqrtIter, Nat.sqrt.iter]
    simp
  | succ f ih =>
    rw [isqrtIter, Nat.sqrt.iter]
    by_cases hlt : (guess + n / guess) / 2 < guess
    · simp only [hlt, if_true, dif_pos hlt]
      exact ih _ (by omega)
    · simp [hlt]

/-- The fueled square root agrees with `Nat.sqrt` everywhere. -/
theorem isqrt_eq_sqrt (n : Nat) : isqrt n = Nat.sqrt n := by
  rw [isqrt, Nat.sqrt]
  split
  · rfl
  · exact isqrtIter_eq_iter n n (n / 2) (Nat.div_le_self n 2)

/-! ## Dictionary lemmas -/

theorem dictGet_insert_self {α : Type} (d : List (Pt × α)) (k : Pt) (v : α) :
    dictGet (dictInsert d k v) k = some v := by
  induction d with
  | nil => simp [dictInsert, dictGet]
  | cons e tl ih =>
    by_cases h : e.1 = k
    · simp [dictInsert, h, dictGet]
    · simp only [dictInsert, if_neg h, dictGet]
      exact ih

theorem dictGet_insert_ne {α : Type} (d : List (Pt × α)) (k q : Pt) (v : α) (h : q ≠ k) :
    dictGet (dictInsert d k v) q = dictGet d q := by
  induction d with
  | nil => simp [dictInsert, dictGet, Ne.symm h]
  | cons e tl ih =>
    by_cases he : e.1 = k
    · simp only [dictInsert, if_pos he, dictGet]
      rw [if_neg (Ne.symm h), if_neg (fun hq => h (hq.symm.trans he))]
    · simp only [dictInsert, if_neg he, dictGet]
      rw [ih]

theorem mem_dictInsert {α : Type} (d : List (Pt × α)) (k : Pt) (v : α) (e : Pt × α)
    (h : e ∈ dictInsert d k v) : e = (k, v) ∨ e ∈ d := by
  induction d with
  | nil => simpa [dictInsert] using h
  | cons e' tl ih =>
    by_cases he : e'.1 = k
    · rw [dictInsert, if_pos he] at h
      rcases List.mem_cons.mp h with h1 | h2
      · exact Or.inl h1
      · exact Or.inr (List.mem_cons_of_mem _ h2)
    · rw [dictInsert, if_neg he] at h
      rcases List.mem_cons.mp h with h1 | h2
      · exact Or.inr (h1 ▸ List.mem_cons_self _ _)
      · rcases ih h2 with h3 | h4
        · exact Or.inl h3
        · exact Or.inr (List.mem_cons_of_mem _ h4)

theorem dictGet_mem {α : Type} (d : List (Pt × α)) (k : Pt) (v : α)
    (h : dictGet d k = some v) : (k, v) ∈ d := by
  induction d with
  | nil => simp [dictGet] at h
  | cons e tl ih =>
    rw [dictGet] at h
    by_cases he : e.1 = k
    · rw [if_pos he] at h
      have : e = (k, v) := by
        obtain ⟨e1, e2⟩ := e
        simp only [Option.some.injEq] at h
        simp only at he
        rw [he, h]
      exact this ▸ List.mem_cons_self _ _
    · rw [if_neg he] at h
      exact List.mem_cons_of_mem _ (ih h)

theorem dictKeys_insert {α : Type} (d : List (Pt × α)) (k : Pt) (v : α) :
    dictKeys (dictInsert d k v) =
      if (dictGet d k).isSome then dictKeys d else dictKeys d ++ [k] := by
  induction d with
  | nil => simp [dictInsert, dictGet, dictKeys]
  | cons e tl ih =>
    by_cases he : e.1 = k
    · simp [dictInsert, if_pos he, dictGet, dictKeys, he]
    · simp only [dictInsert, if_neg he, dictGet, dictKeys, List.map_cons]
      simp only [dictKeys] at ih
      rw [ih]
      split <;> rfl

theorem dictGet_isSome_iff_mem_keys {α : Type} (d : List (Pt × α)) (k : Pt) :
    (dictGet d k).isSome = true ↔ k ∈ dictKeys d := by
  induction d with
  | nil => simp [dictGet, dictKeys]
  | cons e tl ih =>
    by_cases he : e.1 = k
    · simp [dictGet, he, dictKeys]
    · simp [dictGet, he, dictKeys, ih, Ne.symm he]

theorem length_dictInsert_some {α : Type} (d : List (Pt × α)) (k : Pt) (v : α)
    (h : (dictGet d k).isSome = true) : (dictInsert d k v).length = d.length := by
  induction d with
  | nil => simp [dictGet] at h
  | cons e tl ih =>
    by_cases he : e.1 = k
    · simp [dictInsert, he]
    · rw [dictGet, if_neg he] at h
      simp [dictInsert, he, ih h]

theorem length_dictInsert_none {α : Type} (d : List (Pt × α)) (k : Pt) (v : α)
    (h : (dictGet d k).isSome = false) : (dictInsert d k v).length = d.length + 1 := by
  induction d with
  | nil => simp [dictInsert]
  | cons e tl ih =>
    by_cases he : e.1 = k
    · rw [dictGet, if_pos he] at h
      simp at h
    · rw [dictGet, if_neg he] at h
      simp [dictInsert, he, ih h]

theorem length_le_dictInsert {α : Type} (d : List (Pt × α)) (k : Pt) (v : α) :
    d.length ≤ (dictInsert d k v).length := by
  rcases hs : (dictGet d k).isSome with _ | _
  · rw [length_dictInsert_none d k v hs]; omega
  · rw [length_dictInsert_some d k v hs]

/-! ## Cell list lemmas -/

theorem mem_intRange (lo hi a : Int) : a ∈ intRange lo hi ↔ lo ≤ a ∧ a < hi := by
  rw [intRange, List.mem_map]
  constructor
  · rintro ⟨i, him, rfl⟩
    have := List.mem_range.mp him
    omega
  · rintro ⟨h1, h2⟩
    exact ⟨(a - lo).toNat, List.mem_range.mpr (by omega), by omega⟩

theorem nodup_intRange (lo hi : Int) : (intRange lo hi).Nodup := by
  rw [intRange]
  refine List.Nodup.map ?_ (List.nodup_range _)
  intro a b h
  simp only at h
  omega

theorem mem_gridCells (g : Grid) (p : Pt) :
    p ∈ gridCells g ↔ g.in_bounds p.1 p.2 = true := by
  simp only [gridCells, List.mem_flatMap, List.mem_map, mem_intRange, Grid.in_bounds,
    Bool.and_eq_true, decide_eq_true_eq]
  constructor
  · rintro ⟨x, ⟨hx1, hx2⟩, y, ⟨⟨hy1, hy2⟩, rfl⟩⟩
    exact ⟨⟨⟨hx1, hx2⟩, hy1⟩, hy2⟩
  · rintro ⟨⟨⟨h1, h2⟩, h3⟩, h4⟩
    exact ⟨p.1, ⟨h1, h2⟩, p.2, ⟨h3, h4⟩, rfl⟩

theorem nodup_gridCells (g : Grid) : (gridCells g).Nodup := by
  rw [gridCells, List.nodup_flatMap]
  refine ⟨fun x _ => List.Nodup.map (fun a b h => by simpa using h) (nodup_intRange _ _), ?_⟩
  refine (nodup_intRange 0 g.width).imp ?_
  intro a b hne
  intro p hpa hpb
  simp only [List.mem_map] at hpa hpb
  obtain ⟨ya, -, rfl⟩ := hpa
  obtain ⟨yb, -, hb⟩ := hpb
  exact hne (congrArg Prod.fst hb).symm

/-! ## Heap lemmas

Length preservation and element containment for the transcribed
`heapq` operations: pushing adds exactly the new item, popping removes
exactly one element, and no sift ever invents an element. -/

theorem length_siftdownAux (fuel : Nat) :
    ∀ (heap : List HeapItem) (sp pos : Nat) (it : HeapItem),
      (siftdownAux fuel heap sp pos it).length = heap.length := by
  induction fuel with
  | zero => intro heap sp pos it; simp [siftdownAux]
  | succ f ih =>
    intro heap sp pos it
    rw [siftdownAux]
    dsimp only
    split
    · split
      · rw [ih, List.length_set]
      · exact List.length_set heap pos it
    · exact List.length_set heap pos it

theorem length_siftupAux (endpos sp : Nat) (fuel : Nat) :
    ∀ (heap : List HeapItem) (pos : Nat) (it : HeapItem),
      (siftupAux endpos sp fuel heap pos it).length = heap.length := by
  induction fuel with
  | zero =>
    intro heap pos it
    rw [siftupAux, length_siftdownAux, List.length_set]
  | succ f ih =>
    intro heap pos it
    rw [siftupAux]
    dsimp only
    split
    · rw [ih, List.length_set]
    · rw [length_siftdownAux, List.length_set]

theorem length_heappush (h : List HeapItem) (it : HeapItem) :
    (heappush h it).length = h.length + 1 := by
  rw [heappush, siftdown, length_siftdownAux, List.length_append, List.length_singleton]

theorem heappop_length (h : List HeapItem) (it : HeapItem) (rest : List HeapItem)
    (hp : heappop h = some (it, rest)) : rest.length + 1 = h.length := by
  rw [heappop] at hp
  rcases hl : h.getLast? with _ | lastelt <;> rw [hl] at hp <;> dsimp only at hp
  · simp at hp
  · obtain ⟨ys, rfl⟩ := List.getLast?_eq_some_iff.mp hl
    rw [List.dropLast_concat] at hp
    by_cases hemp : ys.isEmpty
    · rw [if_pos hemp] at hp
      simp only [Option.some.injEq, Prod.mk.injEq] at hp
      rw [← hp.2, List.isEmpty_iff.mp hemp]
      simp
    · rw [if_neg hemp] at hp
      simp only [Option.some.injEq, Prod.mk.injEq] at hp
      rw [← hp.2, siftup, length_siftupAux, List.length_set, List.length_append,
        List.length_singleton]

theorem mem_siftdownAux (fuel : Nat) :
    ∀ (heap : List HeapItem) (sp pos : Nat) (it x : HeapItem), pos < heap.length →
      x ∈ siftdownAux fuel heap sp pos it → x = it ∨ x ∈ heap := by
  induction fuel with
  | zero =>
    intro heap sp pos it x _ hx
    rw [siftdownAux] at hx
    rcases List.mem_or_eq_of_mem_set hx with h1 | h2
    · exact Or.inr h1
    · exact Or.inl h2
  | succ f ih =>
    intro heap sp pos it x hpos hx
    rw [siftdownAux] at hx
    dsimp only at hx
    split at hx
    · split at hx
      · next hsp hlt =>
        have hplt : (pos - 1) / 2 < (heap.set pos (heap.getD ((pos - 1) / 2) dummyItem)).length := by
          rw [List.length_set]; omega
        rcases ih _ sp _ it x hplt hx with h1 | h2
        · exact Or.inl h1
        · rcases List.mem_or_eq_of_mem_set h2 with h3 | h4
          · exact Or.inr h3
          · refine Or.inr ?_
            rw [h4, List.getD_eq_getElem heap dummyItem (by omega)]
            exact List.getElem_mem _
      · rcases List.mem_or_eq_of_mem_set hx with h1 | h2
        · exact Or.inr h1
        · exact Or.inl h2
    · rcases List.mem_or_eq_of_mem_set hx with h1 | h2
      · exact Or.inr h1
      · exact Or.inl h2

theorem mem_siftupAux (endpos sp fuel : Nat) :
    ∀ (heap : List HeapItem) (pos : Nat) (it x : HeapItem), pos < heap.length →
      endpos ≤ heap.length → x ∈ siftupAux endpos sp fuel heap pos it →
      x = it ∨ x ∈ heap := by
  induction fuel with
  | zero =>
    intro heap pos it x hpos _ hx
    rw [siftupAux] at hx
    rcases mem_siftdownAux _ _ _ _ _ _ (by rw [List.length_set]; exact hpos) hx with h1 | h2
    · exact Or.inl h1
    · rcases List.mem_or_eq_of_mem_set h2 with h3 | h4
      · exact Or.inr h3
      · exact Or.inl h4
  | succ f ih =>
    intro heap pos it x hpos hend hx
    rw [siftupAux] at hx
    dsimp only at hx
    split at hx
    · next hc =>
      set cp := if 2 * pos + 1 + 1 < endpos ∧
          ¬ (heap.getD (2 * pos + 1) dummyItem).2 < (heap.getD (2 * pos + 1 + 1) dummyItem).2 then
          2 * pos + 1 + 1
        else 2 * pos + 1 with hcp
      have hcplt : cp < endpos := by
        rw [hcp]; split
        · next hcond => exact hcond.1
        · exact hc
      have hcpl : cp < heap.length := lt_of_lt_of_le hcplt hend
      have hlt : cp < (heap.set pos (heap.getD cp dummyItem)).length := by
        rw [List.length_set]; exact hcpl
      rcases ih _ _ it x hlt (by rw [List.length_set]; exact hend) hx with h1 | h2
      · exact Or.inl h1
      · rcases List.mem_or_eq_of_mem_set h2 with h3 | h4
        · exact Or.inr h3
        · refine Or.inr ?_
          rw [h4, List.getD_eq_getElem heap dummyItem hcpl]
          exact List.getElem_mem _
    · rcases mem_siftdownAux _ _ _ _ _ _ (by rw [List.length_set]; exact hpos) hx with h1 | h2
      · exact Or.inl h1
      · rcases List.mem_or_eq_of_mem_set h2 with h3 | h4
        · exact Or.inr h3
        · exact Or.inl h4

theorem mem_heappush (h : List HeapItem) (it x : HeapItem) (hx : x ∈ heappush h it) :
    x = it ∨ x ∈ h := by
  rw [heappush, siftdown] at hx
  have hlen : h.length < (h ++ [it]).length := by simp
  have hget : (h ++ [it]).getD h.length dummyItem = it := by
    rw [List.getD_eq_getElem _ _ hlen]
    exact List.getElem_concat_length h it h.length rfl hlen
  rw [hget] at hx
  rcases mem_siftdownAux _ _ _ _ _ _ hlen hx with h1 | h2
  · exact Or.inl h1
  · rcases List.mem_append.mp h2 with h3 | h4
    · exact Or.inr h3
    · exact Or.inl (List.mem_singleton.mp h4)

theorem heappop_mem (h : List HeapItem) (it : HeapItem) (rest : List HeapItem)
    (hp : heappop h = some (it, rest)) : it ∈ h ∧ ∀ x ∈ rest, x ∈ h := by
  rw [heappop] at hp
  rcases hl : h.getLast? with _ | lastelt <;> rw [hl] at hp <;> dsimp only at hp
  · simp at hp
  · obtain ⟨ys, rfl⟩ := List.getLast?_eq_some_iff.mp hl
    have hlast : lastelt ∈ ys ++ [lastelt] := by simp
    rw [List.dropLast_concat] at hp
    by_cases hemp : ys.isEmpty
    · rw [if_pos hemp] at hp
      simp only [Option.some.injEq, Prod.mk.injEq] at hp
      refine ⟨hp.1 ▸ hlast, ?_⟩
      rw [← hp.2]
      intro x hx
      simp at hx
    · rw [if_neg hemp] at hp
      simp only [Option.some.injEq, Prod.mk.injEq] at hp
      have hys : 0 < ys.length := by
        rcases ys with _ | ⟨a, tl⟩
        · simp at hemp
        · simp
      constructor
      · rw [← hp.1, List.getD_eq_getElem ys dummyItem hys]
        exact List.mem_append_left _ (List.getElem_mem _)
      · intro x hx
        rw [← hp.2, siftup] at hx
        have hset : (ys.set 0 lastelt).getD 0 dummyItem = lastelt := by
          rw [List.getD_eq_getElem _ _ (by rw [List.length_set]; exact hys)]
          exact List.getElem_set_self _
        rw [hset] at hx
        have h0 : 0 < (ys.set 0 lastelt).length := by rw [List.length_set]; exact hys
        rcases mem_siftupAux _ _ _ _ _ _ _ h0 (le_refl _) hx with h1 | h2
        · exact h1 ▸ hlast
        · rcases List.mem_or_eq_of_mem_set h2 with h3 | h4
          · exact List.mem_append_left _ h3
          · exact h4 ▸ hlast

/-! ## Neighbour lemmas -/

theorem in_bounds_iff (g : Grid) (x y : Int) :
    g.in_bounds x y = true ↔ 0 ≤ x ∧ x < g.width ∧ 0 ≤ y ∧ y < g.height := by
  simp [Grid.in_bounds, and_assoc]

theorem neighbours_some (g : Grid) (x y : Int) (allowed : List Int) (d : Bool)
    (h : g.in_bounds x y = true) : ∃ ns, g.neighbours x y allowed d = some ns := by
  rw [Grid.neighbours, if_neg (by rw [h]; simp)]
  exact ⟨_, rfl⟩

theorem neighbours_in_bounds_center (g : Grid) (x y : Int) (allowed : List Int) (d : Bool)
    (ns : List Pt) (h : g.neighbours x y allowed d = some ns) : g.in_bounds x y = true := by
  rw [Grid.neighbours] at h
  by_cases hb : g.in_bounds x y = false
  · rw [if_pos hb] at h; exact absurd h (by simp)
  · exact Bool.not_eq_false _ |>.mp hb

/-- Every emitted 4-neighbour is in bounds and differs from the centre. -/
theorem neighbours_spec (g : Grid) (x y : Int) (allowed : List Int) (ns : List Pt)
    (h : g.neighbours x y allowed false = some ns) :
    ∀ n ∈ ns, g.in_bounds n.1 n.2 = true ∧ n ≠ (x, y) := by
  have hc := neighbours_in_bounds_center g x y allowed false ns h
  obtain ⟨hx0, hxw, hy0, hyh⟩ := (in_bounds_iff g x y).mp hc
  rw [Grid.neighbours, if_neg (by rw [hc]; simp)] at h
  simp only [Option.some.injEq] at h
  subst h
  intro n hn
  simp only [Bool.false_eq_true, if_false, List.append_nil, List.mem_append] at hn
  have hsplit : ∀ (b : Bool) (p : Pt), n ∈ (if b = true then [p] else []) → n = p ∧ b = true := by
    intro b p hm
    by_cases hb : b = true
    · rw [if_pos hb] at hm
      exact ⟨by simpa using hm, hb⟩
    · rw [if_neg hb] at hm
      simp at hm
  rcases hn with ((hn | hn) | hn) | hn
  · obtain ⟨rfl, hcond⟩ := hsplit _ _ hn
    have h1 : y - 1 > -1 := of_decide_eq_true (Bool.and_eq_true _ _ |>.mp hcond).1
    refine ⟨(in_bounds_iff g x (y - 1)).mpr ⟨hx0, hxw, by omega, by omega⟩, ?_⟩
    intro heq
    rw [Prod.mk.injEq] at heq
    omega
  · obtain ⟨rfl, hcond⟩ := hsplit _ _ hn
    have h1 : x + 1 < g.width := of_decide_eq_true (Bool.and_eq_true _ _ |>.mp hcond).1
    refine ⟨(in_bounds_iff g (x + 1) y).mpr ⟨by omega, h1, hy0, hyh⟩, ?_⟩
    intro heq
    rw [Prod.mk.injEq] at heq
    omega
  · obtain ⟨rfl, hcond⟩ := hsplit _ _ hn
    have h1 : y + 1 < g.height := of_decide_eq_true (Bool.and_eq_true _ _ |>.mp hcond).1
    refine ⟨(in_bounds_iff g x (y + 1)).mpr ⟨hx0, hxw, by omega, h1⟩, ?_⟩
    intro heq
    rw [Prod.mk.injEq] at heq
    omega
  · obtain ⟨rfl, hcond⟩ := hsplit _ _ hn
    have h1 : x - 1 > -1 := of_decide_eq_true (Bool.and_eq_true _ _ |>.mp hcond).1
    refine ⟨(in_bounds_iff g (x - 1) y).mpr ⟨by omega, by omega, hy0, hyh⟩, ?_⟩
    intro heq
    rw [Prod.mk.injEq] at heq
    omega

/-! ## Claim C2 — movement legality -/

/-- C2: for every assembled grid and all integers `x, y, dx, dy`,
`is_movement_possible(x, y, dx, dy)` is false when `dx = 0` and `dy = 0`,
false when `(x+dx, y+dy)` is out of bounds, and otherwise true exactly
when the destination tile is a door, corridor, floor or ground tile. -/
theorem claim_C2_is_movement_possible (g : Grid) (x y dx dy : Int) :
    is_movement_possible g x y dx dy = true ↔
      (¬(dx = 0 ∧ dy = 0) ∧ g.in_bounds (x + dx) (y + dy) = true ∧
        g.get (x + dx) (y + dy) ∈ MOVEMENT_ALLOWED) := by
  unfold is_movement_possible
  split
  · simp_all
  · next h1 =>
    by_cases h2 : g.in_bounds (x + dx) (y + dy) = false
    · simp [h2, h1]
    · rw [Bool.not_eq_false] at h2
      simp [h2, h1, allowedMem]

/-! ## Claim C5 — `Point.distance` scrambles its arguments

`Point.dst` computes `isqrt((x1-x2)^2 + (y1-y2)^2)` correctly, but
`distance` delegates with the arguments interleaved
(`Point.dst(self._x, x, self._y, y)`), so `p.distance(x, y)` actually
computes `isqrt((p.x - p.y)^2 + (x - y)^2)`. -/

/-- C5 at the failing input: the hero-style call `Point(0,0).distance(3, 4)`
returns `1`, while the claimed truncated Euclidean distance
`isqrt((0-3)^2 + (0-4)^2)` is `5`. -/
theorem claim_C5_distance_failing_input :
    Point.distance ⟨0, 0⟩ 3 4 = 1 ∧
      Nat.sqrt ((((0 : Int) - 3) ^ 2 + ((0 : Int) - 4) ^ 2)).toNat = 5 ∧
      (1 : Nat) ≠ 5 := by
  refine ⟨by decide, ?_, by decide⟩
  rw [← isqrt_eq_sqrt]; decide

/-! ## Claim C6 — `update_visible` misses cells within distance 7

Two slips: the ranges end at `min(dim, hero + 7)` exclusive, so the
boundary column/row at offset exactly 7 is never examined, and the
per-cell test calls the argument-scrambled `Point.distance`. -/

/-- C6 at the failing input: with the hero at `(0, 0)` on an 8×8 fog
grid, cell `(7, 0)` is at truncated Euclidean distance exactly 7 (so the
claim requires it to be marked visited), yet after `update_visible` it
is still `TILE_NOT_VISITED`. -/
theorem claim_C6_update_visible_failing_input :
    Point.dst 0 0 7 0 = 7 ∧
      (update_visible ⟨0, 0⟩ (Grid.make 8 8 TILE_NOT_VISITED)).get 7 0 =
        TILE_NOT_VISITED := by decide

/-! ## Claim C3 — order of the returned path

`find` seeds `path = [start]`, then appends `goal` and walks the
predecessor links backwards without ever reversing, so whenever the
path has at least three nodes its last element is the successor of
`start`, not `goal`. -/

/-- Shape of a successful reconstruction: the produced suffix is empty
(the goal was the start) or begins with the node it was called on. -/
theorem reconstruct_shape (cf : List (Pt × Option Pt)) (start : Pt) (fuel : Nat) (cur : Pt)
    (tail : List Pt) (h : PathFinder.reconstruct cf start fuel cur = some tail) :
    tail = [] ∨ ∃ rest, tail = cur :: rest := by
  cases fuel with
  | zero => simp [PathFinder.reconstruct] at h
  | succ f =>
    rw [PathFinder.reconstruct] at h
    by_cases hc : cur = start
    · rw [if_pos hc] at h
      simp only [Option.some.injEq] at h
      exact Or.inl h.symm
    · rw [if_neg hc] at h
      rcases hd : dictGet cf cur with _ | op <;> rw [hd] at h
      · simp at h
      · rcases op with _ | prev
        · simp at h
        · simp only [Option.map_eq_some'] at h
          obtain ⟨l, -, hl⟩ := h
          exact Or.inr ⟨l, hl.symm⟩

/-- Any successful `find` returns `start :: tail` where `tail` is empty
or begins with `goal`. -/
theorem findLoop_ok_shape (g : Grid) (c : Pt → Nat) (start goal : Pt) (allowed : List Int) :
    ∀ (fuel : Nat) (st : PFState) (p : List Pt) (g' : Grid),
      PathFinder.findLoop g c start goal allowed fuel st = some (.ok p, g') →
      ∃ tail, p = start :: tail ∧ (tail = [] ∨ ∃ rest, tail = goal :: rest) := by
  intro fuel
  induction fuel with
  | zero => intro st p g' h; simp [PathFinder.findLoop] at h
  | succ f ih =>
    intro st p g' h
    rw [PathFinder.findLoop] at h
    rcases hpop : heappop st.frontier with _ | ⟨item, rest⟩ <;> rw [hpop] at h <;>
      dsimp only at h
    · simp at h
    · by_cases hg : item.1 = goal
      · rw [if_pos hg] at h
        rcases hrec : PathFinder.reconstruct st.came_from start (st.came_from.length + 1) goal
          with _ | tail <;> rw [hrec] at h
        · simp at h
        · simp only [Option.some.injEq, Prod.mk.injEq, Except.ok.injEq] at h
          obtain ⟨hp, -⟩ := h
          refine ⟨tail, hp.symm, ?_⟩
          rcases reconstruct_shape _ _ _ _ _ hrec with h0 | ⟨rest', hr⟩
          · exact Or.inl h0
          · exact Or.inr ⟨rest', hr⟩
      · rw [if_neg hg] at h
        rcases hnb : st.grid.neighbours item.1.1 item.1.2 allowed false with _ | ns <;>
          rw [hnb] at h
        · simp at h
        · exact ih _ _ _ h

/-- C3 counterexample: on the 3×1 all-ground grid an allowed path from
`(0,0)` to `(2,0)` exists, and `find` succeeds — but it returns
`[(0,0), (2,0), (1,0)]`, whose last element is `(1,0)`, not the goal. -/
theorem claim_C3_counterexample :
    PathFinder.find ⟨3, 1, [[0, 0, 0]]⟩ (fun _ => 0) (0, 0) (2, 0) [0] 10 =
      some (.ok [((0, 0) : Pt), (2, 0), (1, 0)], ⟨3, 1, [[0, 0, 0]]⟩) ∧
      ReachA ⟨3, 1, [[0, 0, 0]]⟩ [0] (0, 0) (2, 0) ∧
      [((0, 0) : Pt), (2, 0), (1, 0)].getLast? = some ((1, 0) : Pt) ∧
      ((1, 0) : Pt) ≠ ((2, 0) : Pt) := by
  refine ⟨by decide, ?_, by decide, by decide⟩
  have s1 : stepAllowed ⟨3, 1, [[0, 0, 0]]⟩ [0] (0, 0) (1, 0) := by decide
  have s2 : stepAllowed ⟨3, 1, [[0, 0, 0]]⟩ [0] (1, 0) (2, 0) := by decide
  exact Relation.ReflTransGen.head s1 (Relation.ReflTransGen.head s2 Relation.ReflTransGen.refl)

/-- C3 amended: whenever `PathFinder.find` returns a path, its first
element is `start` and — whenever the path has a second element — that
second element is `goal`; the remainder lists the predecessor chain from
`goal` back towards `start` rather than a start-to-goal order. -/
theorem claim_C3_amended_path_shape (g : Grid) (c : Pt → Nat) (start goal : Pt)
    (allowed : List Int) (fuel : Nat) (p : List Pt) (g' : Grid)
    (h : PathFinder.find g c start goal allowed fuel = some (.ok p, g')) :
    p.head? = some start ∧ (2 ≤ p.length → p[1]? = some goal) := by
  obtain ⟨tail, hp, hshape⟩ := findLoop_ok_shape g c start goal allowed fuel _ p g' h
  subst hp
  refine ⟨rfl, fun hlen => ?_⟩
  rcases hshape with rfl | ⟨rest, rfl⟩
  · simp at hlen
  · simp

/-- Witness for the amended C3 on the concrete 3×1 run. -/
theorem claim_C3_amended_path_shape_witness :
    [((0, 0) : Pt), (2, 0), (1, 0)].head? = some ((0, 0) : Pt) ∧
      (2 ≤ [((0, 0) : Pt), (2, 0), (1, 0)].length →
        [((0, 0) : Pt), (2, 0), (1, 0)][1]? = some ((2, 0) : Pt)) :=
  claim_C3_amended_path_shape ⟨3, 1, [[0, 0, 0]]⟩ (fun _ => 0) (0, 0) (2, 0) [0] 10
    [(0, 0), (2, 0), (1, 0)] ⟨3, 1, [[0, 0, 0]]⟩ (by decide)

/-! ## Claim C10 — `find` never modifies the grid -/

theorem relax_grid (c : Pt → Nat) (goal cur : Pt) (s : PFState) (n : Pt) :
    (PathFinder.relax c goal cur s n).grid = s.grid := by
  rw [PathFinder.relax]
  split <;> rfl

theorem foldl_relax_grid (c : Pt → Nat) (goal cur : Pt) :
    ∀ (ns : List Pt) (s : PFState),
      (ns.foldl (PathFinder.relax c goal cur) s).grid = s.grid := by
  intro ns
  induction ns with
  | nil => intro s; rfl
  | cons n rest ih => intro s; rw [List.foldl_cons, ih, relax_grid]

theorem findLoop_grid (g : Grid) (c : Pt → Nat) (start goal : Pt) (allowed : List Int) :
    ∀ (fuel : Nat) (st : PFState) (r : Except PathErr (List Pt)) (g' : Grid),
      PathFinder.findLoop g c start goal allowed fuel st = some (r, g') → g' = st.grid := by
  intro fuel
  induction fuel with
  | zero => intro st r g' h; simp [PathFinder.findLoop] at h
  | succ f ih =>
    intro st r g' h
    rw [PathFinder.findLoop] at h
    rcases hpop : heappop st.frontier with _ | ⟨item, rest⟩ <;> rw [hpop] at h <;>
      dsimp only at h
    · simp only [Option.some.injEq, Prod.mk.injEq] at h
      exact h.2.symm
    · by_cases hg : item.1 = goal
      · rw [if_pos hg] at h
        rcases hrec : PathFinder.reconstruct st.came_from start (st.came_from.length + 1) goal
          with _ | tail <;> rw [hrec] at h
        · simp at h
        · simp only [Option.some.injEq, Prod.mk.injEq] at h
          exact h.2.symm
      · rw [if_neg hg] at h
        rcases hnb : st.grid.neighbours item.1.1 item.1.2 allowed false with _ | ns <;>
          rw [hnb] at h
        · simp only [Option.some.injEq, Prod.mk.injEq] at h
          exact h.2.symm
        · rw [ih _ _ _ h, foldl_relax_grid]

/-- C10: whatever `PathFinder.find` does — return a path, raise
`PathNotFound`, or raise the out-of-bounds error — every cell of the
grid holds the same value after the call as before it (the threaded
grid comes back unchanged). -/
theorem claim_C10_find_frame (g : Grid) (c : Pt → Nat) (start goal : Pt)
    (allowed : List Int) (fuel : Nat) (r : Except PathErr (List Pt)) (g' : Grid)
    (h : PathFinder.find g c start goal allowed fuel = some (r, g')) : g' = g :=
  findLoop_grid g c start goal allowed fuel _ r g' h

/-- Witness for C10 on the concrete 3×1 run. -/
theorem claim_C10_find_frame_witness :
    (⟨3, 1, [[0, 0, 0]]⟩ : Grid) = ⟨3, 1, [[0, 0, 0]]⟩ :=
  claim_C10_find_frame ⟨3, 1, [[0, 0, 0]]⟩ (fun _ => 0) (0, 0) (2, 0) [0] 10
    (.ok [(0, 0), (2, 0), (1, 0)]) ⟨3, 1, [[0, 0, 0]]⟩ (by decide)

/-! ## Potential and invariant lemmas for the pathfinder -/

theorem le_maxStepCost (costfn : Pt → Nat) (goal : Pt) :
    ∀ (pts : List Pt) (p : Pt), p ∈ pts →
      PathFinder.cost costfn p goal ≤ maxStepCost costfn goal pts := by
  intro pts
  induction pts with
  | nil => intro p hp; cases hp
  | cons q tl ih =>
    intro p hp
    rw [maxStepCost, List.foldr_cons]
    rcases List.mem_cons.mp hp with rfl | hm
    · exact le_max_left _ _
    · exact le_trans (ih p hm) (le_max_right _ _)

theorem dict_length_le_cells (g : Grid) (d : List (Pt × Nat))
    (hkeys : ∀ e ∈ d, e.1 ∈ gridCells g) (hnd : (dictKeys d).Nodup) :
    d.length ≤ (gridCells g).length := by
  have hsub : dictKeys d ⊆ gridCells g := by
    intro k hk
    rw [dictKeys] at hk
    obtain ⟨e, he, rfl⟩ := List.mem_map.mp hk
    exact hkeys e he
  have hle := (hnd.subperm hsub).length_le
  rwa [dictKeys, List.length_map] at hle

theorem SumPot_insert (M : Nat) (k : Pt) (v : Nat) (d : List (Pt × Nat)) :
    ∀ (pts : List Pt), pts.Nodup → k ∈ pts →
      SumPot pts (dictInsert d k v) M + (dictGet d k).getD M =
        SumPot pts d M + v := by
  intro pts
  induction pts with
  | nil => intro _ hk; cases hk
  | cons p tl ih =>
    intro hnd hk
    have hndtl := (List.nodup_cons.mp hnd).2
    have hpnotin := (List.nodup_cons.mp hnd).1
    rw [SumPot, List.map_cons, List.sum_cons, SumPot, List.map_cons, List.sum_cons]
    rcases List.mem_cons.mp hk with rfl | hmem
    · rw [dictGet_insert_self]
      have htl : tl.map (fun q => (dictGet (dictInsert d k v) q).getD M) =
          tl.map (fun q => (dictGet d q).getD M) := by
        apply List.map_congr_left
        intro q hq
        rw [dictGet_insert_ne d k q v (fun he => hpnotin (he ▸ hq))]
      rw [htl]
      simp only [Option.getD_some]
      omega
    · have hpk : p ≠ k := fun he => hpnotin (he ▸ hmem)
      rw [dictGet_insert_ne d k p v hpk]
      have hrec := ih hndtl hmem
      rw [SumPot, SumPot] at hrec
      omega

theorem recordState_inv (g : Grid) (costfn : Pt → Nat) (allowed : List Int) (start : Pt)
    (C : Nat) (goal current n : Pt) (s : PFState)
    (inv : PFInv g allowed start C s)
    (hnmem : n ∈ gridCells g)
    (hreach : ReachA g allowed start n)
    (hnc_bound : PathFinder.relaxCost costfn goal current s n ≤
      1 + (PathFinder.recordState costfn goal current s n).cost_so_far.length * C) :
    PFInv g allowed start C (PathFinder.recordState costfn goal current s n) := by
  set nc := PathFinder.relaxCost costfn goal current s n with hnc
  refine ⟨?_, ?_, ?_, ?_, ?_, ?_, ?_⟩
  · exact inv.grid_eq
  · intro it hit
    rcases mem_heappush _ _ _ hit with rfl | hold
    · exact hreach
    · exact inv.reachF it hold
  · intro it hit
    rcases mem_heappush _ _ _ hit with rfl | hold
    · exact (mem_gridCells g n).mp hnmem
    · exact inv.inbF it hold
  · intro it hit
    by_cases hin : it.1 = n
    · rw [PathFinder.recordState]
      dsimp only
      rw [hin, dictGet_insert_self]
      rfl
    · rw [PathFinder.recordState]
      dsimp only
      rw [dictGet_insert_ne _ _ _ _ hin]
      rcases mem_heappush _ _ _ hit with rfl | hold
      · exact absurd rfl hin
      · exact inv.recF it hold
  · intro e he
    rcases mem_dictInsert _ _ _ _ he with rfl | hold
    · exact hnmem
    · exact inv.keys e hold
  · rw [PathFinder.recordState]
    dsimp only
    rw [dictKeys_insert]
    split
    · exact inv.ndKeys
    · next hnone =>
      rw [List.nodup_append]
      refine ⟨inv.ndKeys, List.nodup_singleton _, ?_⟩
      intro a ha hb
      rw [List.mem_singleton.mp hb] at ha
      rw [← dictGet_isSome_iff_mem_keys] at ha
      exact absurd ha (by simpa using hnone)
  · intro e he
    have hlen := length_le_dictInsert s.cost_so_far n nc
    rcases mem_dictInsert _ _ _ _ he with rfl | hold
    · exact hnc_bound
    · refine le_trans (inv.bound e hold) ?_
      have : s.cost_so_far.length * C ≤
          (PathFinder.recordState costfn goal current s n).cost_so_far.length * C :=
        Nat.mul_le_mul_right C hlen
      omega

theorem relax_spec (g : Grid) (costfn : Pt → Nat) (allowed : List Int) (start : Pt)
    (C : Nat) (goal current n : Pt) (s : PFState)
    (inv : PFInv g allowed start C s)
    (hcur : (dictGet s.cost_so_far current).isSome = true)
    (hnmem : n ∈ gridCells g)
    (hreach : ReachA g allowed start n)
    (hnC : PathFinder.cost costfn n goal ≤ C)
    (hne : n ≠ current) :
    PFInv g allowed start C (PathFinder.relax costfn goal current s n) ∧
      Phi g C (PathFinder.relax costfn goal current s n) ≤ Phi g C s ∧
      dictGet (PathFinder.relax costfn goal current s n).cost_so_far current =
        dictGet s.cost_so_far current := by
  obtain ⟨cv, hcv⟩ := Option.isSome_iff_exists.mp hcur
  have hcvb : cv ≤ 1 + s.cost_so_far.length * C := inv.bound _ (dictGet_mem _ _ _ hcv)
  have hnc_le : PathFinder.relaxCost costfn goal current s n ≤
      1 + s.cost_so_far.length * C + C := by
    rw [PathFinder.relaxCost, hcv]
    simp only [Option.getD_some]
    omega
  have hLle : s.cost_so_far.length ≤ (gridCells g).length :=
    dict_length_le_cells g _ inv.keys inv.ndKeys
  have hcells_pos : 1 ≤ (gridCells g).length := by
    rcases hng : (gridCells g).length with _ | _
    · rw [List.length_eq_zero] at hng
      rw [hng] at hnmem
      cases hnmem
    · omega
  rcases hd : dictGet s.cost_so_far n with _ | c
  · -- `_next not in cost_so_far`: record
    have hrel : PathFinder.relax costfn goal current s n =
        PathFinder.recordState costfn goal current s n := by
      rw [PathFinder.relax, hd]
      simp
    rw [hrel]
    have hlen1 : (PathFinder.recordState costfn goal current s n).cost_so_far.length =
        s.cost_so_far.length + 1 := by
      rw [PathFinder.recordState]
      dsimp only
      exact length_dictInsert_none _ _ _ (by rw [hd]; rfl)
    have hb : PathFinder.relaxCost costfn goal current s n ≤
        1 + (PathFinder.recordState costfn goal current s n).cost_so_far.length * C := by
      rw [hlen1, Nat.add_mul, Nat.one_mul]
      omega
    have inv' := recordState_inv g costfn allowed start C goal current n s inv hnmem hreach hb
    refine ⟨inv', ?_, ?_⟩
    · -- potential does not increase: the unrecorded slot `M` drops to `new_cost ≤ M - 1`
      have hL1 : s.cost_so_far.length + 1 ≤ (gridCells g).length := by
        have := dict_length_le_cells g
          (PathFinder.recordState costfn goal current s n).cost_so_far inv'.keys inv'.ndKeys
        omega
      have hsum := SumPot_insert (potM g C) n (PathFinder.relaxCost costfn goal current s n)
        s.cost_so_far (gridCells g) (nodup_gridCells g) hnmem
      rw [hd] at hsum
      simp only [Option.getD_none] at hsum
      have hncM : PathFinder.relaxCost costfn goal current s n + 1 ≤ potM g C := by
        rw [potM]
        have h1 : (s.cost_so_far.length + 1) * C ≤ (gridCells g).length * C :=
          Nat.mul_le_mul_right C hL1
        rw [Nat.add_mul, Nat.one_mul] at h1
        omega
      rw [Phi, Phi, PathFinder.recordState]
      dsimp only
      rw [length_heappush]
      omega
    · rw [PathFinder.recordState]
      dsimp only
      exact dictGet_insert_ne _ _ _ _ (fun he => hne he.symm)
  · by_cases hlt : PathFinder.relaxCost costfn goal current s n < c
    · -- cheaper re-discovery: record
      have hrel : PathFinder.relax costfn goal current s n =
          PathFinder.recordState costfn goal current s n := by
        rw [PathFinder.relax, hd]
        simp [hlt]
      rw [hrel]
      have hlen0 : (PathFinder.recordState costfn goal current s n).cost_so_far.length =
          s.cost_so_far.length := by
        rw [PathFinder.recordState]
        dsimp only
        exact length_dictInsert_some _ _ _ (by rw [hd]; rfl)
      have hcb : c ≤ 1 + s.cost_so_far.length * C := inv.bound _ (dictGet_mem _ _ _ hd)
      have hb : PathFinder.relaxCost costfn goal current s n ≤
          1 + (PathFinder.recordState costfn goal current s n).cost_so_far.length * C := by
        rw [hlen0]
        omega
      have inv' := recordState_inv g costfn allowed start C goal current n s inv hnmem hreach hb
      refine ⟨inv', ?_, ?_⟩
      · have hsum := SumPot_insert (potM g C) n (PathFinder.relaxCost costfn goal current s n)
          s.cost_so_far (gridCells g) (nodup_gridCells g) hnmem
        rw [hd] at hsum
        simp only [Option.getD_some] at hsum
        rw [Phi, Phi, PathFinder.recordState]
        dsimp only
        rw [length_heappush]
        omega
      · rw [PathFinder.recordState]
        dsimp only
        exact dictGet_insert_ne _ _ _ _ (fun he => hne he.symm)
    · -- not cheaper: skip
      have hrel : PathFinder.relax costfn goal current s n = s := by
        rw [PathFinder.relax, hd]
        simp [hlt]
      rw [hrel]
      exact ⟨inv, le_refl _, rfl⟩

theorem foldl_relax_spec (g : Grid) (costfn : Pt → Nat) (allowed : List Int) (start : Pt)
    (C : Nat) (goal current : Pt) :
    ∀ (ns : List Pt) (s : PFState), PFInv g allowed start C s →
      (dictGet s.cost_so_far current).isSome = true →
      (∀ n ∈ ns, n ∈ gridCells g ∧ ReachA g allowed start n ∧
        PathFinder.cost costfn n goal ≤ C ∧ n ≠ current) →
      PFInv g allowed start C (ns.foldl (PathFinder.relax costfn goal current) s) ∧
        Phi g C (ns.foldl (PathFinder.relax costfn goal current) s) ≤ Phi g C s := by
  intro ns
  induction ns with
  | nil => intro s inv _ _; exact ⟨inv, le_refl _⟩
  | cons n tl ih =>
    intro s inv hcur hall
    obtain ⟨hm, hr, hcle, hne⟩ := hall n (List.mem_cons_self _ _)
    obtain ⟨inv', hφ, hkeep⟩ :=
      relax_spec g costfn allowed start C goal current n s inv hcur hm hr hcle hne
    rw [List.foldl_cons]
    obtain ⟨inv'', hφ'⟩ := ih (PathFinder.relax costfn goal current s n) inv'
      (by rw [hkeep]; exact hcur)
      (fun q hq => hall q (List.mem_cons_of_mem _ hq))
    exact ⟨inv'', le_trans hφ' hφ⟩

theorem findLoop_no_path (g : Grid) (costfn : Pt → Nat) (allowed : List Int)
    (start goal : Pt) (C : Nat)
    (hC : ∀ p ∈ gridCells g, PathFinder.cost costfn p goal ≤ C)
    (hnp : ¬ ReachA g allowed start goal) :
    ∀ (fuel : Nat) (st : PFState), PFInv g allowed start C st → Phi g C st < fuel →
      PathFinder.findLoop g costfn start goal allowed fuel st =
        some (.error .pathNotFound, g) := by
  intro fuel
  induction fuel with
  | zero => intro st _ hφ; omega
  | succ f ih =>
    intro st inv hφ
    rw [PathFinder.findLoop]
    rcases hpop : heappop st.frontier with _ | ⟨item, rest⟩
    · dsimp only
      rw [inv.grid_eq]
    · dsimp only
      obtain ⟨hmem_item, hsub⟩ := heappop_mem _ _ _ hpop
      have hlen := heappop_length _ _ _ hpop
      have hreach_cur := inv.reachF item hmem_item
      have hinb_cur := inv.inbF item hmem_item
      have hrec_cur := inv.recF item hmem_item
      have hne_goal : ¬ item.1 = goal := fun he => hnp (he ▸ hreach_cur)
      rw [if_neg hne_goal, inv.grid_eq]
      obtain ⟨ns, hns⟩ := neighbours_some g item.1.1 item.1.2 allowed false hinb_cur
      rw [hns]
      have hspec := neighbours_spec g item.1.1 item.1.2 allowed ns hns
      have inv0 : PFInv g allowed start C ⟨g, rest, st.came_from, st.cost_so_far⟩ := by
        refine ⟨rfl, ?_, ?_, ?_, inv.keys, inv.ndKeys, inv.bound⟩
        · exact fun it hit => inv.reachF it (hsub it hit)
        · exact fun it hit => inv.inbF it (hsub it hit)
        · exact fun it hit => inv.recF it (hsub it hit)
      have hall : ∀ n ∈ ns, n ∈ gridCells g ∧ ReachA g allowed start n ∧
          PathFinder.cost costfn n goal ≤ C ∧ n ≠ item.1 := by
        intro n hn
        obtain ⟨hinb, hne⟩ := hspec n hn
        have hmem : n ∈ gridCells g := (mem_gridCells g n).mpr hinb
        have hstep : stepAllowed g allowed item.1 n := by
          rw [stepAllowed, hns]
          exact hn
        exact ⟨hmem, hreach_cur.tail hstep, hC n hmem, fun he => hne (by rw [he])⟩
      obtain ⟨inv', hφ'⟩ := foldl_relax_spec g costfn allowed start C goal item.1 ns
        ⟨g, rest, st.came_from, st.cost_so_far⟩ inv0 hrec_cur hall
      refine ih _ inv' ?_
      have hφ0 : Phi g C (⟨g, rest, st.came_from, st.cost_so_far⟩ : PFState) + 1 =
          Phi g C st := by
        rw [Phi, Phi]
        dsimp only
        omega
      omega

/-! ## Claim C4 — behaviour when no path exists -/

/-- C4 amended: for every grid, cost function, allowed set and goal,
and every in-bounds start from which no chain of steps over allowed
tiles reaches the goal, `PathFinder.find` terminates and raises
`PathNotFound` (returning the unchanged grid): past an explicit fuel
bound the fueled loop always yields `PathNotFound`, never a value and
never out-of-fuel. -/
theorem claim_C4_amended_no_path_terminates (g : Grid) (costfn : Pt → Nat)
    (allowed : List Int) (start goal : Pt)
    (hin : g.in_bounds start.1 start.2 = true)
    (hnp : ¬ ReachA g allowed start goal) :
    ∃ N, ∀ fuel, N ≤ fuel →
      PathFinder.find g costfn start goal allowed fuel =
        some (.error .pathNotFound, g) := by
  have hfr : heappush [] ((start, 0) : HeapItem) = [(start, 0)] := rfl
  have inv0 : PFInv g allowed start (maxStepCost costfn goal (gridCells g))
      ⟨g, heappush [] (start, 0), [(start, none)], [(start, 1)]⟩ := by
    refine ⟨rfl, ?_, ?_, ?_, ?_, ?_, ?_⟩
    · intro it hit
      rw [hfr] at hit
      rw [List.mem_singleton.mp hit]
      exact Relation.ReflTransGen.refl
    · intro it hit
      rw [hfr] at hit
      rw [List.mem_singleton.mp hit]
      exact hin
    · intro it hit
      rw [hfr] at hit
      rw [List.mem_singleton.mp hit]
      simp [dictGet]
    · intro e he
      rw [List.mem_singleton.mp he]
      exact (mem_gridCells g start).mpr hin
    · simp [dictKeys]
    · intro e he
      rw [List.mem_singleton.mp he]
      simp
  refine ⟨Phi g (maxStepCost costfn goal (gridCells g))
    ⟨g, heappush [] (start, 0), [(start, none)], [(start, 1)]⟩ + 1, ?_⟩
  intro fuel hfuel
  rw [PathFinder.find]
  exact findLoop_no_path g costfn allowed start goal
    (maxStepCost costfn goal (gridCells g))
    (fun p hp => le_maxStepCost costfn goal (gridCells g) p hp) hnp fuel _ inv0
    (by omega)

/-- Witness for the amended C4 on a concrete 2×1 grid whose goal tile is
not allowed: the search terminates with `PathNotFound`. -/
theorem claim_C4_amended_no_path_terminates_witness :
    ∃ N, ∀ fuel, N ≤ fuel →
      PathFinder.find ⟨2, 1, [[0, 5]]⟩ (fun _ => 0) (0, 0) (1, 0) [0] fuel =
        some (.error .pathNotFound, ⟨2, 1, [[0, 5]]⟩) := by
  refine claim_C4_amended_no_path_terminates ⟨2, 1, [[0, 5]]⟩ (fun _ => 0) [0]
    (0, 0) (1, 0) (by decide) ?_
  intro h
  rcases Relation.ReflTransGen.cases_head h with heq | ⟨b, hstep, -⟩
  · exact absurd heq (by decide)
  · have hns : Grid.neighbours ⟨2, 1, [[0, 5]]⟩ 0 0 [0] false = some [] := by decide
    rw [stepAllowed, hns] at hstep
    simp at hstep

/-- C4 counterexample: with an out-of-bounds start (and hence no allowed
path to the goal), `find` raises the out-of-bounds `ValueError` from
`Grid.neighbours`, not `PathNotFound`. -/
theorem claim_C4_counterexample :
    PathFinder.find ⟨1, 1, [[5]]⟩ (fun _ => 0) (3, 3) (0, 0) [0] 5 =
      some (.error .outOfBounds, ⟨1, 1, [[5]]⟩) ∧
      ¬ ReachA ⟨1, 1, [[5]]⟩ [0] (3, 3) (0, 0) ∧
      (Except.error PathErr.outOfBounds : Except PathErr (List Pt)) ≠
        Except.error PathErr.pathNotFound := by
  refine ⟨by decide, ?_, by decide⟩
  intro h
  rcases Relation.ReflTransGen.cases_head h with heq | ⟨b, hstep, -⟩
  · exact absurd heq (by decide)
  · have hnone : (Grid.neighbours ⟨1, 1, [[5]]⟩ 3 3 [0] false) = none := by decide
    rw [stepAllowed, hnone] at hstep
    simp at hstep

/-! ## Claim C9 — nook content table proportions

The table has 89 entries: 21 × `-1` (monster), 63 × `-2` (nothing) and
5 loot ids, i.e. ≈23.6% monster, ≈70.8% nothing, ≈5.6% loot — far from
the claimed ≈46% nothing / ≈2% monster / ≈52% loot. -/

/-- C9 counterexample: the floor percentages of the fixed table are
70% nothing, 23% monster and 5% loot; each is more than ten percentage
points away from the claimed 46% / 2% / 52%. -/
theorem claim_C9_counterexample :
    random_objects.length = 89 ∧
      nothingCount * 100 / random_objects.length = 70 ∧
      monsterCount * 100 / random_objects.length = 23 ∧
      lootCount * 100 / random_objects.length = 5 ∧
      46 + 10 < 70 ∧ 2 + 10 < 23 ∧ 5 + 10 < 52 - 10 := by decide

/-- C9 amended: the per-nook draw table holds 89 entries of which 63
place nothing (63/89 ≈ 70.8%), 21 place a monster (21/89 ≈ 23.6%) and 5
place a loot item (5/89 ≈ 5.6%). -/
theorem claim_C9_amended_table_weights :
    random_objects.length = 89 ∧ nothingCount = 63 ∧ monsterCount = 21 ∧
      lootCount = 5 ∧ nothingCount + monsterCount + lootCount = random_objects.length := by
  decide

/-! ## Grid put/get lemmas -/

theorem put_width (g : Grid) (u v t : Int) : (g.put u v t).width = g.width := rfl

theorem put_height (g : Grid) (u v t : Int) : (g.put u v t).height = g.height := rfl

theorem put_WF (g : Grid) (u v t : Int) (hwf : g.WF) : (g.put u v t).WF := by
  obtain ⟨hw, hh, hlen, hrows⟩ := hwf
  by_cases hv : v.toNat < g.data.length
  · refine ⟨hw, hh, by rw [Grid.put, List.length_set]; exact hlen, ?_⟩
    intro row hrow
    rw [Grid.put] at hrow
    rcases List.mem_or_eq_of_mem_set hrow with h1 | h2
    · exact hrows row h1
    · rw [h2, List.length_set]
      refine hrows _ ?_
      rw [List.getD_eq_getElem _ _ hv]
      exact List.getElem_mem _
  · rw [Grid.put, List.set_eq_of_length_le (by omega)]
    exact ⟨hw, hh, hlen, hrows⟩

theorem get_put_self (g : Grid) (u v t : Int) (hwf : g.WF)
    (hin : g.in_bounds u v = true) : (g.put u v t).get u v = t := by
  obtain ⟨-, -, hlen, hrows⟩ := hwf
  obtain ⟨hu0, huw, hv0, hvh⟩ := (in_bounds_iff g u v).mp hin
  have hv : v.toNat < g.data.length := by rw [hlen]; omega
  have hrow : g.data.getD v.toNat [] = g.data[v.toNat] := List.getD_eq_getElem _ _ hv
  have hrlen : g.data[v.toNat].length = g.width.toNat := hrows _ (List.getElem_mem _)
  have hu : u.toNat < (g.data.getD v.toNat []).length := by rw [hrow, hrlen]; omega
  have houter : (g.data.set v.toNat ((g.data.getD v.toNat []).set u.toNat t)).getD v.toNat [] =
      (g.data.getD v.toNat []).set u.toNat t := by
    rw [List.getD_eq_getElem?_getD, List.getElem?_set_self hv, Option.getD_some]
  rw [Grid.put, Grid.get]
  dsimp only
  rw [houter, List.getD_eq_getElem?_getD, List.getElem?_set_self hu, Option.getD_some]

theorem get_put_ne (g : Grid) (u v t u2 v2 : Int) (hwf : g.WF)
    (hin : g.in_bounds u v = true) (hne : (u2, v2) ≠ (u, v))
    (hu2 : 0 ≤ u2) (hv2 : 0 ≤ v2) : (g.put u v t).get u2 v2 = g.get u2 v2 := by
  obtain ⟨-, -, hlen, hrows⟩ := hwf
  obtain ⟨hu0, huw, hv0, hvh⟩ := (in_bounds_iff g u v).mp hin
  have hv : v.toNat < g.data.length := by rw [hlen]; omega
  rw [Grid.put, Grid.get, Grid.get]
  dsimp only
  by_cases hveq : v2 = v
  · subst hveq
    have hune : u2 ≠ u := fun he => hne (by rw [he])
    have hunat : u.toNat ≠ u2.toNat := by intro he; exact hune (by omega)
    have houter : (g.data.set v2.toNat ((g.data.getD v2.toNat []).set u.toNat t)).getD v2.toNat [] =
        (g.data.getD v2.toNat []).set u.toNat t := by
      rw [List.getD_eq_getElem?_getD, List.getElem?_set_self hv, Option.getD_some]
    rw [houter, List.getD_eq_getElem?_getD, List.getElem?_set_ne hunat,
      ← List.getD_eq_getElem?_getD]
  · have hvnat : v.toNat ≠ v2.toNat := by intro he; exact hveq (by omega)
    have houter : (g.data.set v.toNat ((g.data.getD v.toNat []).set u.toNat t)).getD v2.toNat [] =
        g.data.getD v2.toNat [] := by
      rw [List.getD_eq_getElem?_getD, List.getElem?_set_ne hvnat, ← List.getD_eq_getElem?_getD]
    rw [houter]

/-! ## Claim C7 — the cleanup pass

`_clean_up` scans interior cave cells, but the conversion it performs is
the reverse of the claim: the corridor 8-neighbours of the cave cell are
converted to ground, and the cave cell itself keeps its cave tile. -/

/-- C7 counterexample: on a 3×3 grid whose centre is cave and whose
corner `(0,0)` is corridor, the interior cave cell `(1,1)` has a
corridor 8-neighbour, yet after `_clean_up` it still holds `TILE_CAVE`
(the claim says it must be `TILE_GROUND`); instead its corridor
neighbour was turned to ground. -/
theorem claim_C7_counterexample :
    (⟨3, 3, [[1, -1, -1], [-1, -1, -1], [-1, -1, -1]]⟩ : Grid).get 1 1 = TILE_CAVE ∧
      (⟨3, 3, [[1, -1, -1], [-1, -1, -1], [-1, -1, -1]]⟩ : Grid).get 0 0 = TILE_CORRIDOR ∧
      adj8 (1, 1) (0, 0) ∧
      (_clean_up 3 3 ⟨3, 3, [[1, -1, -1], [-1, -1, -1], [-1, -1, -1]]⟩).get 1 1 = TILE_CAVE ∧
      (_clean_up 3 3 ⟨3, 3, [[1, -1, -1], [-1, -1, -1], [-1, -1, -1]]⟩).get 0 0 = TILE_GROUND ∧
      TILE_CAVE ≠ TILE_GROUND := by decide

theorem mem_if_singleton (b : Bool) (p n : Pt) :
    n ∈ (if b = true then [p] else []) ↔ (b = true ∧ n = p) := by
  by_cases hb : b = true
  · rw [if_pos hb]; simp [hb]
  · rw [if_neg hb]; simp [hb]

/-- Membership characterisation for 8-direction neighbour enumeration:
exactly the in-bounds 8-adjacent cells whose tile is allowed. -/
theorem mem_neighbours8 (g : Grid) (x y : Int) (allowed : List Int) (ns : List Pt)
    (h : g.neighbours x y allowed true = some ns) (q : Pt) :
    q ∈ ns ↔ (g.in_bounds q.1 q.2 = true ∧ allowedMem (g.get q.1 q.2) allowed = true ∧
      adj8 (x, y) q) := by
  have hc := neighbours_in_bounds_center g x y allowed true ns h
  obtain ⟨hx0, hxw, hy0, hyh⟩ := (in_bounds_iff g x y).mp hc
  rw [Grid.neighbours, if_neg (by rw [hc]; simp)] at h
  simp only [Option.some.injEq] at h
  subst h
  obtain ⟨qx, qy⟩ := q
  simp only [eq_self_iff_true, if_true, List.mem_append, mem_if_singleton]
  simp only [Bool.and_eq_true, decide_eq_true_eq]
  constructor
  · have hadj : ∀ ax ay : Int, ¬(ax = x ∧ ay = y) → (x - ax).natAbs ≤ 1 →
        (y - ay).natAbs ≤ 1 → adj8 (x, y) (ax, ay) := by
      intro ax ay hne h1 h2
      refine ⟨?_, h1, h2⟩
      intro he
      rw [Prod.mk.injEq] at he
      exact hne ⟨he.1.symm, he.2.symm⟩
    rintro ((((⟨⟨hg, ha⟩, he⟩ | ⟨⟨hg, ha⟩, he⟩) | ⟨⟨hg, ha⟩, he⟩) | ⟨⟨hg, ha⟩, he⟩) |
      (((⟨⟨⟨hg1, hg2⟩, ha⟩, he⟩ | ⟨⟨⟨hg1, hg2⟩, ha⟩, he⟩) | ⟨⟨⟨hg1, hg2⟩, ha⟩, he⟩) |
        ⟨⟨⟨hg1, hg2⟩, ha⟩, he⟩)) <;>
      rw [Prod.mk.injEq] at he <;> obtain ⟨rfl, rfl⟩ := he <;>
      exact ⟨(in_bounds_iff _ _ _).mpr (by omega), ha,
        hadj _ _ (by intro hh; omega) (by omega) (by omega)⟩
  · rintro ⟨hinq, hal, hadj⟩
    obtain ⟨hne, hd1, hd2⟩ := hadj
    dsimp only at hd1 hd2 hal hinq
    obtain ⟨hq0, hqw, hq1, hqh⟩ := (in_bounds_iff _ _ _).mp hinq
    have hne2 : ¬(qx = x ∧ qy = y) := by
      rintro ⟨rfl, rfl⟩
      exact hne rfl
    have hx3 : qx = x - 1 ∨ qx = x ∨ qx = x + 1 := by omega
    have hy3 : qy = y - 1 ∨ qy = y ∨ qy = y + 1 := by omega
    rcases hx3 with rfl | rfl | rfl <;> rcases hy3 with rfl | rfl | rfl
    · exact Or.inr (Or.inl (Or.inl (Or.inl ⟨⟨⟨by omega, by omega⟩, hal⟩, rfl⟩)))
    · exact Or.inl (Or.inr ⟨⟨by omega, hal⟩, rfl⟩)
    · exact Or.inr (Or.inr ⟨⟨⟨by omega, by omega⟩, hal⟩, rfl⟩)
    · exact Or.inl (Or.inl (Or.inl (Or.inl ⟨⟨by omega, hal⟩, rfl⟩)))
    · exact absurd ⟨rfl, rfl⟩ hne2
    · exact Or.inl (Or.inl (Or.inr ⟨⟨by omega, hal⟩, rfl⟩))
    · exact Or.inr (Or.inl (Or.inl (Or.inr ⟨⟨⟨by omega, by omega⟩, hal⟩, rfl⟩)))
    · exact Or.inl (Or.inl (Or.inl (Or.inr ⟨⟨by omega, hal⟩, rfl⟩)))
    · exact Or.inr (Or.inl (Or.inr ⟨⟨⟨by omega, by omega⟩, hal⟩, rfl⟩))

/-- `in_bounds` depends only on the stored dimensions. -/
theorem in_bounds_congr (g1 g2 : Grid) (hW : g1.width = g2.width)
    (hH : g1.height = g2.height) (x y : Int) :
    g1.in_bounds x y = g2.in_bounds x y := by
  rw [Grid.in_bounds, Grid.in_bounds, hW, hH]

/-- Folding ground-writes over a list of in-bounds cells: dimensions and
well-formedness are preserved, and a cell reads ground exactly when it is
in the list. -/
theorem foldl_put_ground (ns : List Pt) : ∀ (g : Grid), g.WF →
    (∀ p ∈ ns, g.in_bounds p.1 p.2 = true) →
    (ns.foldl (fun ga nb => ga.put nb.1 nb.2 TILE_GROUND) g).width = g.width ∧
    (ns.foldl (fun ga nb => ga.put nb.1 nb.2 TILE_GROUND) g).height = g.height ∧
    (ns.foldl (fun ga nb => ga.put nb.1 nb.2 TILE_GROUND) g).WF ∧
    ∀ u v : Int, 0 ≤ u → 0 ≤ v →
      (ns.foldl (fun ga nb => ga.put nb.1 nb.2 TILE_GROUND) g).get u v =
        if ((u, v) : Pt) ∈ ns then TILE_GROUND else g.get u v := by
  induction ns with
  | nil =>
    intro g hwf _
    refine ⟨rfl, rfl, hwf, ?_⟩
    intro u v _ _
    rw [List.foldl_nil, if_neg (List.not_mem_nil _)]
  | cons p rest ih =>
    intro g hwf hns
    obtain ⟨p1, p2⟩ := p
    have hpin : g.in_bounds p1 p2 = true := hns (p1, p2) (List.mem_cons_self _ _)
    have hwf1 : (g.put p1 p2 TILE_GROUND).WF := put_WF g _ _ _ hwf
    have hns1 : ∀ q ∈ rest, (g.put p1 p2 TILE_GROUND).in_bounds q.1 q.2 = true := by
      intro q hq
      exact hns q (List.mem_cons_of_mem _ hq)
    obtain ⟨hW, hH, hWF, hget⟩ := ih (g.put p1 p2 TILE_GROUND) hwf1 hns1
    rw [List.foldl_cons]
    refine ⟨hW, hH, hWF, ?_⟩
    intro u v hu hv
    rw [hget u v hu hv]
    by_cases hmem : ((u, v) : Pt) ∈ rest
    · rw [if_pos hmem, if_pos (List.mem_cons_of_mem _ hmem)]
    · rw [if_neg hmem]
      by_cases heq : ((u, v) : Pt) = (p1, p2)
      · rw [if_pos (by rw [heq]; exact List.mem_cons_self _ _)]
        rw [Prod.mk.injEq] at heq
        obtain ⟨rfl, rfl⟩ := heq
        exact get_put_self g _ _ _ hwf hpin
      · rw [if_neg (by
          intro hm
          rcases List.mem_cons.mp hm with h1 | h2
          · exact heq h1
          · exact hmem h2)]
        exact get_put_ne g p1 p2 TILE_GROUND u v hwf hpin heq hu hv

/-- Unwrapping the corridor-only allowed set of the cleanup pass. -/
theorem allowedMem_cleanup (t : Int) :
    allowedMem t CLEAN_UP_ALLOWED = true ↔ t = TILE_CORRIDOR := by
  rw [allowedMem, CLEAN_UP_ALLOWED]
  simp

/-- Effect of one cleanup scan cell: dimensions and well-formedness are
preserved; a cell becomes ground exactly when the centre holds cave and
the cell is an in-bounds corridor 8-neighbour of the centre. -/
theorem cleanCell_spec (g : Grid) (x y : Int) (hwf : g.WF)
    (hin : g.in_bounds x y = true) :
    (cleanCell g x y).width = g.width ∧ (cleanCell g x y).height = g.height ∧
    (cleanCell g x y).WF ∧
    ∀ u v : Int, 0 ≤ u → 0 ≤ v →
      (cleanCell g x y).get u v =
        if (g.get x y = TILE_CAVE ∧ g.in_bounds u v = true ∧
            g.get u v = TILE_CORRIDOR ∧ adj8 (x, y) (u, v)) then TILE_GROUND
        else g.get u v := by
  by_cases hcave : g.get x y = TILE_CAVE
  · obtain ⟨ns, hns⟩ := neighbours_some g x y CLEAN_UP_ALLOWED true hin
    have hcc : cleanCell g x y =
        ns.foldl (fun ga nb => ga.put nb.1 nb.2 TILE_GROUND) g := by
      rw [cleanCell, if_pos hcave, hns, Option.getD_some]
    have hmem : ∀ q : Pt, q ∈ ns ↔ (g.in_bounds q.1 q.2 = true ∧
        g.get q.1 q.2 = TILE_CORRIDOR ∧ adj8 (x, y) q) := by
      intro q
      rw [mem_neighbours8 g x y CLEAN_UP_ALLOWED ns hns q,
        allowedMem_cleanup (g.get q.1 q.2)]
    have hall : ∀ p ∈ ns, g.in_bounds p.1 p.2 = true := fun p hp => ((hmem p).mp hp).1
    obtain ⟨hW, hH, hWF, hget⟩ := foldl_put_ground ns g hwf hall
    rw [hcc]
    refine ⟨hW, hH, hWF, ?_⟩
    intro u v hu hv
    rw [hget u v hu hv]
    have hiff : (((u, v) : Pt) ∈ ns) ↔ (g.get x y = TILE_CAVE ∧
        g.in_bounds u v = true ∧ g.get u v = TILE_CORRIDOR ∧
        adj8 (x, y) (u, v)) := by
      rw [hmem (u, v)]
      constructor
      · rintro ⟨h1, h2, h3⟩
        exact ⟨hcave, h1, h2, h3⟩
      · rintro ⟨-, h1, h2, h3⟩
        exact ⟨h1, h2, h3⟩
    exact if_congr hiff rfl rfl
  · have hcc : cleanCell g x y = g := by rw [cleanCell, if_neg hcave]
    rw [hcc]
    refine ⟨rfl, rfl, hwf, ?_⟩
    intro u v _ _
    rw [if_neg (by intro hcontra; exact hcave hcontra.1)]

/-- Folding over a flattened list equals the nested fold. -/
theorem foldl_flatMap_fold (xs : List Int) (f : Int → List Pt)
    (step : Grid → Pt → Grid) : ∀ (g : Grid),
    (xs.flatMap f).foldl step g =
      xs.foldl (fun acc x => (f x).foldl step acc) g := by
  induction xs with
  | nil => intro g; rfl
  | cons x rest ih =>
    intro g
    rw [List.flatMap_cons, List.foldl_append, List.foldl_cons, ih]

/-- The cleanup pass is the fold of `cleanCell` over the interior cells
in scan order. -/
theorem cleanup_eq_fold (W H : Int) (g : Grid) :
    _clean_up W H g =
      (interiorCells W H).foldl (fun ga c => cleanCell ga c.1 c.2) g := by
  rw [_clean_up, interiorCells, foldl_flatMap_fold]
  simp only [List.foldl_map]

/-- Interior-cell membership. -/
theorem mem_interiorCells (W H : Int) (c : Pt) :
    c ∈ interiorCells W H ↔
      1 ≤ c.1 ∧ c.1 < W - 1 ∧ 1 ≤ c.2 ∧ c.2 < H - 1 := by
  obtain ⟨cx, cy⟩ := c
  rw [interiorCells, List.mem_flatMap]
  constructor
  · rintro ⟨x, hx, hm⟩
    rw [List.mem_map] at hm
    obtain ⟨y, hy, heq⟩ := hm
    rw [Prod.mk.injEq] at heq
    obtain ⟨rfl, rfl⟩ := heq
    have h1 := (mem_intRange _ _ _).mp hx
    have h2 := (mem_intRange _ _ _).mp hy
    exact ⟨h1.1, h1.2, h2.1, h2.2⟩
  · rintro ⟨h1, h2, h3, h4⟩
    refine ⟨cx, (mem_intRange _ _ _).mpr ⟨h1, h2⟩, ?_⟩
    rw [List.mem_map]
    exact ⟨cy, (mem_intRange _ _ _).mpr ⟨h3, h4⟩, rfl⟩

/-- Scan-order invariant for the cleanup fold: after processing the
cells of `done`, a cell reads ground exactly when it was an in-bounds
corridor with an original cave 8-neighbour among the processed centres;
folding the remaining centres `cs` extends `done` by `cs`. -/
theorem fold_clean_inv (g0 : Grid) :
    ∀ (cs : List Pt), ∀ (done : List Pt) (gk : Grid),
      gk.width = g0.width → gk.height = g0.height → gk.WF →
      (∀ c ∈ cs, g0.in_bounds c.1 c.2 = true) →
      (∀ u v : Int, 0 ≤ u → 0 ≤ v →
        gk.get u v = if (g0.get u v = TILE_CORRIDOR ∧
            (∃ c ∈ done, g0.get c.1 c.2 = TILE_CAVE ∧ adj8 c (u, v)) ∧
            g0.in_bounds u v = true) then TILE_GROUND else g0.get u v) →
      (∀ u v : Int, 0 ≤ u → 0 ≤ v →
        (cs.foldl (fun ga c => cleanCell ga c.1 c.2) gk).get u v =
          if (g0.get u v = TILE_CORRIDOR ∧
              (∃ c ∈ done ++ cs, g0.get c.1 c.2 = TILE_CAVE ∧ adj8 c (u, v)) ∧
              g0.in_bounds u v = true) then TILE_GROUND else g0.get u v) := by
  intro cs
  induction cs with
  | nil =>
    intro done gk _ _ _ _ hinv u v hu hv
    rw [List.foldl_nil, List.append_nil]
    exact hinv u v hu hv
  | cons c rest ih =>
    intro done gk hWeq hHeq hwfk hcs hinv u v hu hv
    obtain ⟨c1, c2⟩ := c
    have hc0 : g0.in_bounds c1 c2 = true := hcs (c1, c2) (List.mem_cons_self _ _)
    have hck : gk.in_bounds c1 c2 = true := by
      rw [in_bounds_congr gk g0 hWeq hHeq]
      exact hc0
    obtain ⟨hW1, hH1, hWF1, hget1⟩ := cleanCell_spec gk c1 c2 hwfk hck
    obtain ⟨hc1a, hc1b, hc2a, hc2b⟩ := (in_bounds_iff g0 c1 c2).mp hc0
    have hcave_iff : gk.get c1 c2 = TILE_CAVE ↔ g0.get c1 c2 = TILE_CAVE := by
      have h := hinv c1 c2 (by omega) (by omega)
      by_cases hP : (g0.get c1 c2 = TILE_CORRIDOR ∧
          (∃ c ∈ done, g0.get c.1 c.2 = TILE_CAVE ∧ adj8 c (c1, c2)) ∧
          g0.in_bounds c1 c2 = true)
      · rw [if_pos hP] at h
        constructor
        · intro hcontra
          rw [h] at hcontra
          exact absurd hcontra (by decide)
        · intro hcontra
          rw [hP.1] at hcontra
          exact absurd hcontra (by decide)
      · rw [if_neg hP] at h
        rw [h]
    have hinv1 : ∀ u2 v2 : Int, 0 ≤ u2 → 0 ≤ v2 →
        (cleanCell gk c1 c2).get u2 v2 =
          if (g0.get u2 v2 = TILE_CORRIDOR ∧
              (∃ c ∈ done ++ [((c1, c2) : Pt)],
                g0.get c.1 c.2 = TILE_CAVE ∧ adj8 c (u2, v2)) ∧
              g0.in_bounds u2 v2 = true) then TILE_GROUND
          else g0.get u2 v2 := by
      intro u2 v2 hu2 hv2
      have hsplit : (∃ c ∈ done ++ [((c1, c2) : Pt)],
          g0.get c.1 c.2 = TILE_CAVE ∧ adj8 c (u2, v2)) ↔
          ((∃ c ∈ done, g0.get c.1 c.2 = TILE_CAVE ∧ adj8 c (u2, v2)) ∨
            (g0.get c1 c2 = TILE_CAVE ∧ adj8 (c1, c2) (u2, v2))) := by
        constructor
        · rintro ⟨cc, hcm, hR⟩
          rcases List.mem_append.mp hcm with h1 | h2
          · exact Or.inl ⟨cc, h1, hR⟩
          · rw [List.mem_singleton] at h2
            subst h2
            exact Or.inr hR
        · rintro (⟨cc, hcm, hR⟩ | hR)
          · exact ⟨cc, List.mem_append.mpr (Or.inl hcm), hR⟩
          · exact ⟨(c1, c2), List.mem_append.mpr
              (Or.inr (List.mem_singleton.mpr rfl)), hR⟩
      rw [hget1 u2 v2 hu2 hv2, hinv u2 v2 hu2 hv2,
        in_bounds_congr gk g0 hWeq hHeq u2 v2]
      by_cases hAB : g0.get u2 v2 = TILE_CORRIDOR ∧ g0.in_bounds u2 v2 = true
      · obtain ⟨hA, hB⟩ := hAB
        by_cases hD : ∃ c ∈ done, g0.get c.1 c.2 = TILE_CAVE ∧ adj8 c (u2, v2)
        · have hP : g0.get u2 v2 = TILE_CORRIDOR ∧
              (∃ c ∈ done, g0.get c.1 c.2 = TILE_CAVE ∧ adj8 c (u2, v2)) ∧
              g0.in_bounds u2 v2 = true := ⟨hA, hD, hB⟩
          rw [if_pos hP]
          have hnC : ¬(gk.get c1 c2 = TILE_CAVE ∧ g0.in_bounds u2 v2 = true ∧
              TILE_GROUND = TILE_CORRIDOR ∧ adj8 (c1, c2) (u2, v2)) :=
            fun hcon => absurd hcon.2.2.1 (by decide)
          rw [if_neg hnC]
          have hQ : g0.get u2 v2 = TILE_CORRIDOR ∧
              (∃ c ∈ done ++ [((c1, c2) : Pt)],
                g0.get c.1 c.2 = TILE_CAVE ∧ adj8 c (u2, v2)) ∧
              g0.in_bounds u2 v2 = true := ⟨hA, hsplit.mpr (Or.inl hD), hB⟩
          rw [if_pos hQ]
        · have hnP : ¬(g0.get u2 v2 = TILE_CORRIDOR ∧
              (∃ c ∈ done, g0.get c.1 c.2 = TILE_CAVE ∧ adj8 c (u2, v2)) ∧
              g0.in_bounds u2 v2 = true) := fun hcon => hD hcon.2.1
          rw [if_neg hnP]
          by_cases hE : g0.get c1 c2 = TILE_CAVE ∧ adj8 (c1, c2) (u2, v2)
          · have hC : gk.get c1 c2 = TILE_CAVE ∧ g0.in_bounds u2 v2 = true ∧
                g0.get u2 v2 = TILE_CORRIDOR ∧ adj8 (c1, c2) (u2, v2) :=
              ⟨hcave_iff.mpr hE.1, hB, hA, hE.2⟩
            have hQ : g0.get u2 v2 = TILE_CORRIDOR ∧
                (∃ c ∈ done ++ [((c1, c2) : Pt)],
                  g0.get c.1 c.2 = TILE_CAVE ∧ adj8 c (u2, v2)) ∧
                g0.in_bounds u2 v2 = true := ⟨hA, hsplit.mpr (Or.inr hE), hB⟩
            rw [if_pos hC, if_pos hQ]
          · have hnC : ¬(gk.get c1 c2 = TILE_CAVE ∧ g0.in_bounds u2 v2 = true ∧
                g0.get u2 v2 = TILE_CORRIDOR ∧ adj8 (c1, c2) (u2, v2)) := by
              intro hcon
              exact hE ⟨hcave_iff.mp hcon.1, hcon.2.2.2⟩
            rw [if_neg hnC]
            have hnQ : ¬(g0.get u2 v2 = TILE_CORRIDOR ∧
                (∃ c ∈ done ++ [((c1, c2) : Pt)],
                  g0.get c.1 c.2 = TILE_CAVE ∧ adj8 c (u2, v2)) ∧
                g0.in_bounds u2 v2 = true) := by
              intro hcon
              rcases hsplit.mp hcon.2.1 with h1 | h2
              · exact hD h1
              · exact hE h2
            rw [if_neg hnQ]
      · have hnP : ¬(g0.get u2 v2 = TILE_CORRIDOR ∧
            (∃ c ∈ done, g0.get c.1 c.2 = TILE_CAVE ∧ adj8 c (u2, v2)) ∧
            g0.in_bounds u2 v2 = true) := fun hcon => hAB ⟨hcon.1, hcon.2.2⟩
        rw [if_neg hnP]
        have hnC : ¬(gk.get c1 c2 = TILE_CAVE ∧ g0.in_bounds u2 v2 = true ∧
            g0.get u2 v2 = TILE_CORRIDOR ∧ adj8 (c1, c2) (u2, v2)) :=
          fun hcon => hAB ⟨hcon.2.2.1, hcon.2.1⟩
        rw [if_neg hnC]
        have hnQ : ¬(g0.get u2 v2 = TILE_CORRIDOR ∧
            (∃ c ∈ done ++ [((c1, c2) : Pt)],
              g0.get c.1 c.2 = TILE_CAVE ∧ adj8 c (u2, v2)) ∧
            g0.in_bounds u2 v2 = true) := fun hcon => hAB ⟨hcon.1, hcon.2.2⟩
        rw [if_neg hnQ]
    have hcs1 : ∀ cc ∈ rest, g0.in_bounds cc.1 cc.2 = true :=
      fun cc hcc => hcs cc (List.mem_cons_of_mem _ hcc)
    have hres := ih (done ++ [((c1, c2) : Pt)]) (cleanCell gk c1 c2)
      (hW1.trans hWeq) (hH1.trans hHeq) hWF1 hcs1 hinv1 u v hu hv
    rw [List.append_assoc, List.singleton_append] at hres
    rw [List.foldl_cons]
    exact hres

/-- C7 (amended): the cleanup pass leaves every cell unchanged except
that a nonnegative-coordinate cell holding a corridor tile that is
8-adjacent to an interior cave cell (and in bounds) is converted to
ground — i.e. the conversion runs from the cave cell to its corridor
neighbours, not the other way round. -/
theorem claim_C7_amended_cleanup (g : Grid) (hwf : g.WF) (u v : Int)
    (hu : 0 ≤ u) (hv : 0 ≤ v) :
    (g.get u v = TILE_CORRIDOR ∧ CaveAdj g (u, v) ∧ g.in_bounds u v = true →
      (_clean_up g.width g.height g).get u v = TILE_GROUND) ∧
    (¬(g.get u v = TILE_CORRIDOR ∧ CaveAdj g (u, v) ∧
        g.in_bounds u v = true) →
      (_clean_up g.width g.height g).get u v = g.get u v) := by
  have hcs : ∀ c ∈ interiorCells g.width g.height,
      g.in_bounds c.1 c.2 = true := by
    intro c hc
    have hm := (mem_interiorCells _ _ _).mp hc
    rw [in_bounds_iff]
    omega
  have hinv0 : ∀ u2 v2 : Int, 0 ≤ u2 → 0 ≤ v2 →
      g.get u2 v2 = if (g.get u2 v2 = TILE_CORRIDOR ∧
          (∃ c ∈ ([] : List Pt), g.get c.1 c.2 = TILE_CAVE ∧ adj8 c (u2, v2)) ∧
          g.in_bounds u2 v2 = true) then TILE_GROUND else g.get u2 v2 := by
    intro u2 v2 _ _
    rw [if_neg]
    rintro ⟨-, ⟨c, hc, -⟩, -⟩
    exact List.not_mem_nil c hc
  have hres := fold_clean_inv g (interiorCells g.width g.height) [] g rfl rfl
    hwf hcs hinv0 u v hu hv
  rw [List.nil_append] at hres
  rw [← cleanup_eq_fold] at hres
  have hiff : (g.get u v = TILE_CORRIDOR ∧
      (∃ c ∈ interiorCells g.width g.height,
        g.get c.1 c.2 = TILE_CAVE ∧ adj8 c (u, v)) ∧
      g.in_bounds u v = true) ↔
      (g.get u v = TILE_CORRIDOR ∧ CaveAdj g (u, v) ∧
        g.in_bounds u v = true) := by
    constructor
    · rintro ⟨h1, ⟨c, hc, hcave, hadj⟩, h3⟩
      have hm := (mem_interiorCells _ _ _).mp hc
      exact ⟨h1, ⟨c, hm.1, hm.2.1, hm.2.2.1, hm.2.2.2, hcave, hadj⟩, h3⟩
    · rintro ⟨h1, ⟨c, hb1, hb2, hb3, hb4, hcave, hadj⟩, h3⟩
      exact ⟨h1, ⟨c, (mem_interiorCells _ _ _).mpr ⟨hb1, hb2, hb3, hb4⟩,
        hcave, hadj⟩, h3⟩
  constructor
  · intro hcond
    rw [hres, if_pos (hiff.mpr hcond)]
  · intro hncond
    rw [hres, if_neg (fun hc => hncond (hiff.mp hc))]

/-- Witness for the amended C7 characterisation at a concrete grid:
corner corridor `(0,0)` next to the interior cave `(1,1)` is ground
after cleanup. -/
theorem claim_C7_amended_cleanup_witness :
    (⟨3, 3, [[1, -1, -1], [-1, -1, -1], [-1, -1, -1]]⟩ : Grid).WF ∧
      (0 : Int) ≤ 0 ∧
      (_clean_up 3 3 ⟨3, 3, [[1, -1, -1], [-1, -1, -1], [-1, -1, -1]]⟩).get 0 0 =
        TILE_GROUND := by
  have hwf : (⟨3, 3, [[1, -1, -1], [-1, -1, -1], [-1, -1, -1]]⟩ : Grid).WF :=
    ⟨by decide, by decide, by decide, by decide⟩
  refine ⟨hwf, by decide, ?_⟩
  have h := (claim_C7_amended_cleanup
    ⟨3, 3, [[1, -1, -1], [-1, -1, -1], [-1, -1, -1]]⟩ hwf 0 0
    (by decide) (by decide)).1
  exact h ⟨by decide, ⟨((1, 1) : Pt), by decide, by decide, by decide,
    by decide, by decide, by decide⟩, by decide⟩

/-! ## Generation-stage support lemmas (claims C1 and C8) -/

/-- Inversion of a successful monadic bind in the generation monad. -/
theorem genBind_inv {α β : Type} (m : GenM α) (f : α → GenM β) (r : RState)
    (b : β) (r2 : RState) (h : (m >>= f) r = some (b, r2)) :
    ∃ a r1, m r = some (a, r1) ∧ f a r1 = some (b, r2) := by
  have hb : (m >>= f) r =
      match m r with
      | none => none
      | some (a, r1) => f a r1 := rfl
  rw [hb] at h
  cases hm : m r with
  | none =>
    rw [hm] at h
    exact absurd h (by simp)
  | some ar =>
    obtain ⟨a, r1⟩ := ar
    rw [hm] at h
    exact ⟨a, r1, rfl, h⟩

/-- A successful `randrange(lo, hi)` draw lies in `[lo, hi)`. -/
theorem randrange_bounds (lo hi : Int) (r r' : RState) (v : Int)
    (h : randrange lo hi r = some (v, r')) : lo ≤ v ∧ v < hi := by
  rw [randrange] at h
  by_cases hle : hi ≤ lo
  · rw [if_pos hle] at h
    exact absurd h (by simp)
  · rw [if_neg hle] at h
    simp only [Option.some.injEq, Prod.mk.injEq] at h
    obtain ⟨h1, -⟩ := h
    have hmod : r.vals r.idx % (hi - lo).toNat < (hi - lo).toNat :=
      Nat.mod_lt _ (by omega)
    omega

/-- Every room `_random_room` returns fits inside the grid: the inclusive
wall rectangle `[x, x+width] by [y, y+height]` stays within
`[0, W-1] by [0, H-1]` (it may touch the border, though). -/
theorem _random_room_fits (W H : Int) (r r' : RState) (room : Room)
    (h : _random_room W H r = some (room, r')) :
    0 ≤ room.x ∧ room.x + room.width ≤ W - 1 ∧
      0 ≤ room.y ∧ room.y + room.height ≤ H - 1 := by
  rw [_random_room] at h
  obtain ⟨size, r1, hsize, h⟩ := genBind_inv _ _ _ _ _ h
  obtain ⟨x, r2, hx, h⟩ := genBind_inv _ _ _ _ _ h
  obtain ⟨y, r3, hy, h⟩ := genBind_inv _ _ _ _ _ h
  have hpure : (pure (⟨x, y,
      (if size % 4 ≠ 0 then ((size / 3 * 4 : Int), size) else (size, size / 3 * 4)).1,
      (if size % 4 ≠ 0 then ((size / 3 * 4 : Int), size) else (size, size / 3 * 4)).2⟩ : Room) :
      GenM Room) r3 = some (room, r') := h
  have hroom : room = ⟨x, y,
      (if size % 4 ≠ 0 then ((size / 3 * 4 : Int), size) else (size, size / 3 * 4)).1,
      (if size % 4 ≠ 0 then ((size / 3 * 4 : Int), size) else (size, size / 3 * 4)).2⟩ := by
    have : (some ((⟨x, y, _, _⟩ : Room), r3) : Option (Room × RState)) = some (room, r') := hpure
    simp only [Option.some.injEq, Prod.mk.injEq] at this
    exact this.1.symm
  obtain ⟨hx1, hx2⟩ := randrange_bounds _ _ _ _ _ hx
  obtain ⟨hy1, hy2⟩ := randrange_bounds _ _ _ _ _ hy
  subst hroom
  dsimp only
  constructor
  · exact hx1
  refine ⟨by omega, hy1, by omega⟩

/-- The rejection loop only ever returns rooms sampled by
`_random_room`, so its output fits inside the grid as well. -/
theorem _generate_room_fits (W H : Int) (rooms : List Room) :
    ∀ (fuel : Nat) (r r' : RState) (room : Room),
      _generate_room W H rooms fuel r = some (room, r') →
      0 ≤ room.x ∧ room.x + room.width ≤ W - 1 ∧
        0 ≤ room.y ∧ room.y + room.height ≤ H - 1 := by
  intro fuel
  induction fuel with
  | zero =>
    intro r r' room h
    rw [_generate_room] at h
    exact absurd h (by rw [genFail]; simp)
  | succ n ih =>
    intro r r' room h
    rw [_generate_room] at h
    obtain ⟨cand, r1, hcand, h⟩ := genBind_inv _ _ _ _ _ h
    by_cases hint : rooms.any
        (fun room2 => room2.intersects cand MIN_DISTANCE_BETWEEN_ROOMS) = true
    · rw [if_pos hint] at h
      exact ih r1 r' room h
    · rw [if_neg hint] at h
      have hcr : cand = room := by
        have : (some (cand, r1) : Option (Room × RState)) = some (room, r') := h
        simp only [Option.some.injEq, Prod.mk.injEq] at this
        exact this.1
      subst hcr
      exact _random_room_fits W H r r1 cand hcand

/-- Every room accumulated by `buildRooms` fits inside the grid. -/
theorem buildRooms_fits (W H : Int) (rfuel : Nat) :
    ∀ (k : Nat) (acc : List Room) (r r' : RState) (out : List Room),
      (∀ a ∈ acc, 0 ≤ a.x ∧ a.x + a.width ≤ W - 1 ∧
        0 ≤ a.y ∧ a.y + a.height ≤ H - 1) →
      buildRooms W H rfuel k acc r = some (out, r') →
      ∀ a ∈ out, 0 ≤ a.x ∧ a.x + a.width ≤ W - 1 ∧
        0 ≤ a.y ∧ a.y + a.height ≤ H - 1 := by
  intro k
  induction k with
  | zero =>
    intro acc r r' out hacc h
    rw [buildRooms] at h
    have : (some (acc, r) : Option (List Room × RState)) = some (out, r') := h
    simp only [Option.some.injEq, Prod.mk.injEq] at this
    rw [← this.1]
    exact hacc
  | succ n ih =>
    intro acc r r' out hacc h
    rw [buildRooms] at h
    obtain ⟨newr, r1, hnew, h⟩ := genBind_inv _ _ _ _ _ h
    refine ih (acc ++ [newr]) r1 r' out ?_ h
    intro a ha
    rcases List.mem_append.mp ha with h1 | h2
    · exact hacc a h1
    · rw [List.mem_singleton] at h2
      subst h2
      exact _generate_room_fits W H acc rfuel r r1 a hnew

/-- Insertion keeps exactly the old elements plus the new one. -/
theorem mem_insertSorted {α : Type} (le : α → α → Bool) (a b : α) :
    ∀ (l : List α), b ∈ insertSorted le a l ↔ b = a ∨ b ∈ l := by
  intro l
  induction l with
  | nil =>
    rw [insertSorted]
    simp
  | cons c tl ih =>
    rw [insertSorted]
    by_cases hle : le c a = true
    · rw [if_pos hle]
      simp only [List.mem_cons, ih]
      tauto
    · rw [if_neg hle]
      simp only [List.mem_cons]

/-- The stable sort is a permutation membership-wise. -/
theorem mem_stableSort {α : Type} (le : α → α → Bool) (l : List α) (b : α) :
    b ∈ stableSort le l ↔ b ∈ l := by
  rw [stableSort]
  have haux : ∀ (l2 acc : List α),
      b ∈ l2.foldl (fun acc a => insertSorted le a acc) acc ↔
        b ∈ acc ∨ b ∈ l2 := by
    intro l2
    induction l2 with
    | nil =>
      intro acc
      simp
    | cons c tl ih =>
      intro acc
      rw [List.foldl_cons, ih, mem_insertSorted]
      simp only [List.mem_cons]
      tauto
  rw [haux l []]
  simp

/-! ## Claim C8 — border margin

`_random_room` draws `x = randrange(0, width - room_width)`, so `x = 0`
(a room touching the left border) is a possible outcome, and stamping
such a room hews the border; the claimed strict 1-tile margin does not
exist.  What does hold: rooms always fit inside the grid. -/

/-- C8 counterexample: on the draw stream `1, 0, 0, ...` the room
sampler returns `Room(0, 0, 12, 9)` for a 20-by-20 grid — its left edge
sits on the border column `x = 0`, not strictly inside a 1-tile margin —
and stamping that room onto the all-cave grid overwrites the border
cell `(0, 0)` with a wall tile, so the border no longer holds cave. -/
theorem claim_C8_counterexample :
    _random_room 20 20 ⟨streamC8cx, 0⟩ =
      some (⟨0, 0, 12, 9⟩, ⟨streamC8cx, 3⟩) ∧
    ¬ (1 ≤ (Room.mk 0 0 12 9).x) ∧
    (_copy_room_data
      (⟨20, 20, List.replicate 20 (List.replicate 20 TILE_CAVE)⟩ : Grid)
      ⟨0, 0, 12, 9⟩).get 0 0 = TILE_WALL_TL ∧
    TILE_WALL_TL ≠ TILE_CAVE := by
  refine ⟨rfl, by decide, by decide, by decide⟩

/-- C8 (amended): every room the generator accumulates — and hence every
room in the sorted list the assembly passes consume — fits inside the
grid: the inclusive wall rectangle stays within `[0, W-1] by [0, H-1]`.
It may touch the border, so no strict 1-tile margin is guaranteed. -/
theorem claim_C8_amended_rooms (W H : Int) (rfuel k : Nat)
    (acc rooms : List Room) (r r' : RState)
    (hacc : ∀ a ∈ acc, 0 ≤ a.x ∧ a.x + a.width ≤ W - 1 ∧
      0 ≤ a.y ∧ a.y + a.height ≤ H - 1)
    (h : buildRooms W H rfuel k acc r = some (rooms, r')) :
    ∀ a ∈ stableSort (fun a b => a.priority ≤ b.priority) rooms,
      0 ≤ a.x ∧ a.x + a.width ≤ W - 1 ∧
        0 ≤ a.y ∧ a.y + a.height ≤ H - 1 := by
  intro a ha
  rw [mem_stableSort] at ha
  exact buildRooms_fits W H rfuel k acc r r' rooms hacc h a ha

/-- Witness for the amended C8 statement: a concrete one-room build on a
20-by-20 grid. -/
theorem claim_C8_amended_rooms_witness :
    (∀ a ∈ ([] : List Room), 0 ≤ a.x ∧ a.x + a.width ≤ (20 : Int) - 1 ∧
      0 ≤ a.y ∧ a.y + a.height ≤ (20 : Int) - 1) ∧
    buildRooms 20 20 5 1 [] ⟨streamC8cx, 0⟩ =
      some ([⟨0, 0, 12, 9⟩], ⟨streamC8cx, 3⟩) ∧
    (∀ a ∈ stableSort (fun a b => a.priority ≤ b.priority)
        [(⟨0, 0, 12, 9⟩ : Room)],
      0 ≤ a.x ∧ a.x + a.width ≤ (20 : Int) - 1 ∧
        0 ≤ a.y ∧ a.y + a.height ≤ (20 : Int) - 1) := by
  refine ⟨by simp, rfl, ?_⟩
  exact claim_C8_amended_rooms 20 20 5 1 [] [⟨0, 0, 12, 9⟩]
    ⟨streamC8cx, 0⟩ ⟨streamC8cx, 3⟩ (by simp) rfl

/-! ## Claim C1 — connectivity of the assembled dungeon -/

/-- A legal movement step: the source is in bounds, the target is an
in-bounds 4-neighbour whose tile is in the allowed set. -/
theorem stepAllowed_spec (g : Grid) (allowed : List Int) (p q : Pt)
    (h : stepAllowed g allowed p q) :
    g.in_bounds p.1 p.2 = true ∧ g.in_bounds q.1 q.2 = true ∧
      allowedMem (g.get q.1 q.2) allowed = true ∧
      ((q.1 = p.1 ∧ (q.2 = p.2 - 1 ∨ q.2 = p.2 + 1)) ∨
        (q.2 = p.2 ∧ (q.1 = p.1 - 1 ∨ q.1 = p.1 + 1))) := by
  rw [stepAllowed] at h
  cases hn : g.neighbours p.1 p.2 allowed false with
  | none =>
    rw [hn] at h
    simp at h
  | some ns =>
    rw [hn] at h
    simp only [Option.getD_some] at h
    have hc := neighbours_in_bounds_center g p.1 p.2 allowed false ns hn
    obtain ⟨hx0, hxw, hy0, hyh⟩ := (in_bounds_iff g p.1 p.2).mp hc
    rw [Grid.neighbours, if_neg (by rw [hc]; simp)] at hn
    simp only [Option.some.injEq] at hn
    subst hn
    obtain ⟨qx, qy⟩ := q
    simp only [Bool.false_eq_true, if_false, List.append_nil, List.mem_append,
      mem_if_singleton] at h
    simp only [Bool.and_eq_true, decide_eq_true_eq] at h
    refine ⟨hc, ?_⟩
    rcases h with ((⟨⟨hg, ha⟩, he⟩ | ⟨⟨hg, ha⟩, he⟩) | ⟨⟨hg, ha⟩, he⟩) |
      ⟨⟨hg, ha⟩, he⟩ <;>
      rw [Prod.mk.injEq] at he <;> obtain ⟨rfl, rfl⟩ := he
    · exact ⟨(in_bounds_iff _ _ _).mpr (by omega), ha, Or.inl ⟨rfl, Or.inl rfl⟩⟩
    · exact ⟨(in_bounds_iff _ _ _).mpr (by omega), ha, Or.inr ⟨rfl, Or.inr rfl⟩⟩
    · exact ⟨(in_bounds_iff _ _ _).mpr (by omega), ha, Or.inl ⟨rfl, Or.inr rfl⟩⟩
    · exact ⟨(in_bounds_iff _ _ _).mpr (by omega), ha, Or.inr ⟨rfl, Or.inl rfl⟩⟩

/-- Separation principle: if no legal step from the start enters `P`,
and every legal step into `P` from an allowed-tile cell starts inside
`P`, then nothing in `P` is reachable from the start. -/
theorem reach_blocked (g : Grid) (allowed : List Int) (s : Pt) (P : List Pt)
    (hs : s ∉ P)
    (hstart : ∀ q : Pt, stepAllowed g allowed s q → q ∉ P)
    (hclosed : ∀ p q : Pt, stepAllowed g allowed p q →
      allowedMem (g.get p.1 p.2) allowed = true → q ∈ P → p ∈ P) :
    ∀ t, ReachA g allowed s t → t ∉ P := by
  have main : ∀ t, ReachA g allowed s t →
      t ∉ P ∧ (t = s ∨ allowedMem (g.get t.1 t.2) allowed = true) := by
    intro t h
    have h2 : Relation.ReflTransGen (stepAllowed g allowed) s t := h
    clear h
    induction h2 with
    | refl => exact ⟨hs, Or.inl rfl⟩
    | tail hab hbc ih =>
      obtain ⟨hbP, hb⟩ := ih
      have hc := stepAllowed_spec g allowed _ _ hbc
      refine ⟨?_, Or.inr hc.2.2.1⟩
      rcases hb with rfl | hballowed
      · exact hstart _ hbc
      · intro hcP
        exact hbP (hclosed _ _ hbc hballowed hcP)
  exact fun t h => (main t h).1

/-- C1 counterexample: the generator's connection pass does not enforce
the claimed invariant — `_connect_pair_caves` catches `PathNotFoundError`
and returns the state unchanged.  On the 5-by-1 grid
`[ground, wall, wall, wall, ground]` with degenerate rooms centred at
`(0,0)` and `(4,0)`, the pass completes successfully yet leaves the
walkable ground cell `(4,0)` unreachable (by movement-allowed steps)
from the walkable centre `(0,0)` of the first room. -/
theorem claim_C1_counterexample :
    (⟨0, 0, 0, 0⟩ : Room).center = ((0, 0) : Pt) ∧
    (⟨4, 0, 0, 0⟩ : Room).center = ((4, 0) : Pt) ∧
    _connect_pair_caves 5 1 ⟨0, 0, 0, 0⟩ ⟨4, 0, 0, 0⟩
      ((⟨5, 1, [[0, 5, 5, 5, 0]]⟩ : Grid), []) ⟨streamZero, 0⟩ =
      some (((⟨5, 1, [[0, 5, 5, 5, 0]]⟩ : Grid), []), ⟨streamZero, 0⟩) ∧
    allowedMem ((⟨5, 1, [[0, 5, 5, 5, 0]]⟩ : Grid).get 0 0)
      MOVEMENT_ALLOWED = true ∧
    (⟨5, 1, [[0, 5, 5, 5, 0]]⟩ : Grid).in_bounds 4 0 = true ∧
    allowedMem ((⟨5, 1, [[0, 5, 5, 5, 0]]⟩ : Grid).get 4 0)
      MOVEMENT_ALLOWED = true ∧
    ¬ ReachA (⟨5, 1, [[0, 5, 5, 5, 0]]⟩ : Grid) MOVEMENT_ALLOWED
      ((0, 0) : Pt) ((4, 0) : Pt) := by
  refine ⟨rfl, rfl, rfl, by decide, by decide, by decide, ?_⟩
  intro hreach
  have hs : ((0, 0) : Pt) ∉ [((4, 0) : Pt)] := by decide
  have hstart : ∀ q : Pt,
      stepAllowed (⟨5, 1, [[0, 5, 5, 5, 0]]⟩ : Grid) MOVEMENT_ALLOWED
        (0, 0) q → q ∉ [((4, 0) : Pt)] := by
    intro q hq
    have hq2 : q ∈ ([] : List Pt) := hq
    exact absurd hq2 (List.not_mem_nil q)
  have hclosed : ∀ p q : Pt,
      stepAllowed (⟨5, 1, [[0, 5, 5, 5, 0]]⟩ : Grid) MOVEMENT_ALLOWED p q →
      allowedMem ((⟨5, 1, [[0, 5, 5, 5, 0]]⟩ : Grid).get p.1 p.2)
        MOVEMENT_ALLOWED = true →
      q ∈ [((4, 0) : Pt)] → p ∈ [((4, 0) : Pt)] := by
    intro p q hstep hpal hqP
    rw [List.mem_singleton] at hqP
    subst hqP
    obtain ⟨p1, p2⟩ := p
    obtain ⟨hinp, hinq, hqal, hadj⟩ :=
      stepAllowed_spec _ MOVEMENT_ALLOWED (p1, p2) (4, 0) hstep
    dsimp only at hinp hadj hpal
    obtain ⟨hp1a, hp1b, hp2a, hp2b⟩ := (in_bounds_iff _ p1 p2).mp hinp
    have hw : (⟨5, 1, [[0, 5, 5, 5, 0]]⟩ : Grid).width = 5 := rfl
    have hh : (⟨5, 1, [[0, 5, 5, 5, 0]]⟩ : Grid).height = 1 := rfl
    rw [hw] at hp1b
    rw [hh] at hp2b
    have hp13 : p1 = 3 ∧ p2 = 0 := by
      rcases hadj with ⟨h1, h2 | h2⟩ | ⟨h1, h2 | h2⟩ <;> omega
    obtain ⟨h3, h0⟩ := hp13
    subst h3
    subst h0
    exact absurd hpal (by decide)
  exact reach_blocked _ MOVEMENT_ALLOWED (0, 0) [((4, 0) : Pt)] hs hstart
    hclosed (4, 0) hreach (List.mem_singleton.mpr rfl)

/-- C1 (amended): what the code actually guarantees.  First, movement
reachability is sound: every cell reachable from any start by
movement-allowed steps is in bounds and holds a movement-allowed tile
(or is the start itself).  Second, the connection pass is best-effort:
whenever the pathfinder reports `PathNotFoundError`,
`_connect_pair_caves` swallows the exception and returns its state
unchanged, so unreachable walkable pockets can survive assembly. -/
theorem claim_C1_amended :
    (∀ (g : Grid) (allowed : List Int) (s t : Pt),
      ReachA g allowed s t →
      t = s ∨ (g.in_bounds t.1 t.2 = true ∧
        allowedMem (g.get t.1 t.2) allowed = true)) ∧
    (∀ (W H : Int) (a b : Room) (g : Grid) (nooks : List Pt) (r : RState)
      (g2 : Grid),
      PathFinder.find g (_cost_caves g) a.center b.center
        CONNECT_CAVES_ALLOWED
        (pfFuel g (_cost_caves g) a.center b.center) =
        some (.error .pathNotFound, g2) →
      _connect_pair_caves W H a b (g, nooks) r = some ((g, nooks), r)) := by
  constructor
  · intro g allowed s t h
    have h2 : Relation.ReflTransGen (stepAllowed g allowed) s t := h
    clear h
    induction h2 with
    | refl => exact Or.inl rfl
    | tail hab hbc ih =>
      have hc := stepAllowed_spec g allowed _ _ hbc
      exact Or.inr ⟨hc.2.1, hc.2.2.1⟩
  · intro W H a b g nooks r g2 hfind
    rw [_connect_pair_caves]
    dsimp only
    rw [hfind]
    rfl

/-- Witness for the amended C1 statement: a two-step reachability chain
on a 3-by-1 ground strip, and the unchanged-state outcome of the
connection pass on the blocked 5-by-1 grid. -/
theorem claim_C1_amended_witness :
    (((2, 0) : Pt) = ((0, 0) : Pt) ∨
      ((⟨3, 1, [[0, 0, 0]]⟩ : Grid).in_bounds 2 0 = true ∧
        allowedMem ((⟨3, 1, [[0, 0, 0]]⟩ : Grid).get 2 0)
          MOVEMENT_ALLOWED = true)) ∧
    _connect_pair_caves 5 1 ⟨0, 0, 0, 0⟩ ⟨4, 0, 0, 0⟩
      ((⟨5, 1, [[0, 5, 5, 5, 0]]⟩ : Grid), []) ⟨streamZero, 0⟩ =
      some (((⟨5, 1, [[0, 5, 5, 5, 0]]⟩ : Grid), []), ⟨streamZero, 0⟩) := by
  constructor
  · have s1 : stepAllowed (⟨3, 1, [[0, 0, 0]]⟩ : Grid) MOVEMENT_ALLOWED
        (0, 0) (1, 0) := by decide
    have s2 : stepAllowed (⟨3, 1, [[0, 0, 0]]⟩ : Grid) MOVEMENT_ALLOWED
        (1, 0) (2, 0) := by decide
    exact claim_C1_amended.1 _ MOVEMENT_ALLOWED (0, 0) (2, 0)
      (Relation.ReflTransGen.tail
        (Relation.ReflTransGen.tail Relation.ReflTransGen.refl s1) s2)
  · exact claim_C1_amended.2 5 1 ⟨0, 0, 0, 0⟩ ⟨4, 0, 0, 0⟩ _ []
      ⟨streamZero, 0⟩ (⟨5, 1, [[0, 5, 5, 5, 0]]⟩ : Grid) (by rfl)

end Rpg
